import Mathlib

/-!
# Select-based network manager (open62541, `ua_select_based_networkmanager.c`)

A shallow embedding of the socket dispatcher of
`src/plugins/networking/ua_select_based_networkmanager.c`.

* A `UA_Socket *` is an address (`SocketPtr`).  What the pointer dereferences to
  (the fields `id`, `isListener`, `discoveryUrl` and the function pointers
  `activity`, `mayDelete`, `close`, `free`) is given by a `SocketEnv`, together
  with the readiness primitive `UA_select`.  The mutable state the callbacks act
  on is an arbitrary type `σ`.
* The intrusive `LIST_HEAD(, SocketListEntry)` is a `List SocketPtr`, head first.
  `LIST_INSERT_HEAD` is `::`, `LIST_FOREACH_SAFE` with `LIST_REMOVE` of the
  current entry is structural recursion that keeps or drops the head.
* Every call through a socket's function pointer is recorded, in order, in a
  list of `Call`s, so that statements about which callbacks run, and in which
  order, can be made.
* Modelling assumptions: the callbacks do not re-enter the manager (they do not
  edit the registration list while it is traversed), `mayDelete` only reads the
  state, and the fields `id`, `isListener`, `discoveryUrl` of a socket do not
  change.  Logging (`UA_LOG_*`) has no effect on the state and is left out.
* A block that comes from `UA_malloc` holds what the allocator left in it.  For
  the constructor this content is an argument: what the fields of the fresh
  `SelectNMData` read as.  A list head that does not reach a well-formed list
  has no value of the model.
-/

namespace SelectNM

/-! ## Status codes -/

/-- A `UA_StatusCode` is a 32-bit unsigned number. -/
abbrev UA_StatusCode := Nat

/-- Modelled from the spec: the status-code constants are declared in a header
that is not part of the sources at hand; `GOOD` is success, numbered 0. -/
def UA_STATUSCODE_GOOD : UA_StatusCode := 0

/-- Modelled from the spec: `BAD_INTERNAL_ERROR`, with its OPC UA number. -/
def UA_STATUSCODE_BADINTERNALERROR : UA_StatusCode := 0x80020000

/-- Modelled from the spec: `BAD_OUT_OF_MEMORY`, with its OPC UA number. -/
def UA_STATUSCODE_BADOUTOFMEMORY : UA_StatusCode := 0x80030000

/-- Modelled from the spec: `BAD_COMMUNICATION_ERROR`, with its OPC UA number. -/
def UA_STATUSCODE_BADCOMMUNICATIONERROR : UA_StatusCode := 0x80050000

/-! ## Sockets -/

/-- A `UA_Socket *`: sockets are compared by address. -/
abbrev SocketPtr := Nat

/-- A `UA_String` / `UA_ByteString`: its bytes. -/
abbrev UA_String := List Nat

/-- An `fd_set`: the descriptors that are set. -/
abbrev fd_set := List Nat

/-- The macro `FD_ZERO`. -/
def FD_ZERO : fd_set := []

/-- The model of `UA_fd_set(fd, set)`. -/
def UA_fd_set (fd : Nat) (set : fd_set) : fd_set := fd :: set

/-- The model of `UA_fd_isset(fd, set)`. -/
def UA_fd_isset (fd : Nat) (set : fd_set) : Bool := set.contains fd

/-- What `UA_select` hands back: its return value and the two descriptor sets
as it leaves them. -/
structure SelectResult where
  ret : Int
  fdset : fd_set
  errset : fd_set

/-- What the socket pointers dereference to, and the readiness primitive.
`σ` is the state the callbacks read and write. -/
structure SocketEnv (σ : Type) where
  /-- The field `socket->id`. -/
  id : SocketPtr → Nat
  /-- The field `socket->isListener`. -/
  isListener : SocketPtr → Bool
  /-- The field `socket->discoveryUrl`. -/
  discoveryUrl : SocketPtr → UA_String
  /-- The call `socket->activity(socket)`: its status and the state it leaves. -/
  activity : SocketPtr → σ → UA_StatusCode × σ
  /-- The call `socket->mayDelete(socket)`. -/
  mayDelete : SocketPtr → σ → Bool
  /-- The call `socket->close(socket)`; its status is ignored by the manager. -/
  close : SocketPtr → σ → σ
  /-- The call `socket->free(socket)`; its status is ignored by the manager. -/
  free : SocketPtr → σ → σ
  /-- The call `UA_select(nfds, &fdset, NULL, &errset, &tv)` with `tv = {0, usec}`. -/
  select : (nfds : Int) → (readfds : fd_set) → (errfds : fd_set) → (usec : Nat) → σ →
    SelectResult

/-- One call through a function pointer of a socket.  An `activity` call is
recorded with the status it returned, a `mayDelete` call with its answer. -/
inductive Call where
  | activity (socket : SocketPtr) (status : UA_StatusCode)
  | mayDelete (socket : SocketPtr) (answer : Bool)
  | close (socket : SocketPtr)
  | free (socket : SocketPtr)
  deriving DecidableEq, Repr

/-- The socket a recorded call was made on. -/
def Call.socket : Call → SocketPtr
  | .activity s _ => s
  | .mayDelete s _ => s
  | .close s => s
  | .free s => s

/-! ## The manager -/

/-- The struct `SelectNMData` (the logger left out): the registration list,
head first, and the tracked number of listeners. -/
structure SelectNMData where
  sockets : List SocketPtr
  numListenerSockets : Nat
  deriving DecidableEq, Repr

/-- What an operation of the manager leaves behind: the status it returns, the
manager's data, the state of the sockets, and the callbacks it invoked, in
order. -/
structure NMResult (σ : Type) where
  status : UA_StatusCode
  internalData : SelectNMData
  world : σ
  calls : List Call

/-- The function `select_nm_registerSocket`.  `mallocOk` tells whether the
allocation of the list entry succeeds. -/
def select_nm_registerSocket {σ : Type} (mallocOk : Bool) (nm : SelectNMData)
    (socket : SocketPtr) (w : σ) : NMResult σ :=
  if !mallocOk then
    { status := UA_STATUSCODE_BADOUTOFMEMORY, internalData := nm, world := w, calls := [] }
  else
    { status := UA_STATUSCODE_GOOD,
      internalData := { nm with sockets := socket :: nm.sockets },
      world := w, calls := [] }

/-- The loop of `select_nm_unregisterSocket`: every entry whose socket is
`socket` is unlinked, the others stay. -/
def unregisterLoop (socket : SocketPtr) : List SocketPtr → List SocketPtr
  | [] => []
  | entry :: rest =>
    if entry = socket then unregisterLoop socket rest
    else entry :: unregisterLoop socket rest

/-- The function `select_nm_unregisterSocket`. -/
def select_nm_unregisterSocket {σ : Type} (nm : SelectNMData) (socket : SocketPtr)
    (w : σ) : NMResult σ :=
  { status := UA_STATUSCODE_GOOD,
    internalData := { nm with sockets := unregisterLoop socket nm.sockets },
    world := w, calls := [] }

/-- The cast `(UA_Int32)` of an unsigned number. -/
def toInt32 (n : Nat) : Int :=
  let m : Nat := n % 2 ^ 32
  if m < 2 ^ 31 then (m : Int) else (m : Int) - 2 ^ 32

/-- The loop of `setFDSet`: sets every registered id and tracks the highest. -/
def setFDSetLoop {σ : Type} (env : SocketEnv σ) :
    List SocketPtr → fd_set × Int → fd_set × Int
  | [], acc => acc
  | socket :: rest, (fdset, highestfd) =>
    let fdset := UA_fd_set (env.id socket) fdset
    let highestfd := if toInt32 (env.id socket) > highestfd then toInt32 (env.id socket)
      else highestfd
    setFDSetLoop env rest (fdset, highestfd)

/-- The function `setFDSet`: the descriptor set and the highest descriptor. -/
def setFDSet {σ : Type} (env : SocketEnv σ) (nmData : SelectNMData) : fd_set × Int :=
  setFDSetLoop env nmData.sockets (FD_ZERO, 0)

/-- The state the loop of `select_nm_process` carries from entry to entry. -/
structure ProcessState (σ : Type) where
  retval : UA_StatusCode
  world : σ
  calls : List Call

/-- The statements `retval = socket->activity(socket); if(retval != GOOD)
socket->close(socket);` of the loop body. -/
def activityStep {σ : Type} (env : SocketEnv σ) (socket : SocketPtr)
    (st : ProcessState σ) : ProcessState σ :=
  let r := env.activity socket st.world
  if r.1 ≠ UA_STATUSCODE_GOOD then
    { retval := r.1, world := env.close socket r.2,
      calls := st.calls ++ [Call.activity socket r.1, Call.close socket] }
  else
    { retval := r.1, world := r.2, calls := st.calls ++ [Call.activity socket r.1] }

/-- The block `if(socket->mayDelete(socket)) { socket->free(socket);
LIST_REMOVE(...); UA_free(...); }`, which the loop body has on both of its
paths: whether the entry is unlinked, and the state after the block. -/
def reapStep {σ : Type} (env : SocketEnv σ) (socket : SocketPtr)
    (st : ProcessState σ) : Bool × ProcessState σ :=
  if env.mayDelete socket st.world then
    (true, { st with world := env.free socket st.world,
                     calls := st.calls ++ [Call.mayDelete socket true, Call.free socket] })
  else
    (false, { st with calls := st.calls ++ [Call.mayDelete socket false] })

/-- The body of the loop of `select_nm_process` for one entry: whether the
entry is unlinked, and the state after it. -/
def processEntry {σ : Type} (env : SocketEnv σ) (fdset errset : fd_set)
    (socket : SocketPtr) (st : ProcessState σ) : Bool × ProcessState σ :=
  if !UA_fd_isset (env.id socket) errset && !UA_fd_isset (env.id socket) fdset then
    reapStep env socket st
  else
    reapStep env socket (activityStep env socket st)

/-- The loop `LIST_FOREACH_SAFE` of `select_nm_process`: the entries that stay
linked, in order, and the state after the last entry. -/
def processLoop {σ : Type} (env : SocketEnv σ) (fdset errset : fd_set) :
    List SocketPtr → ProcessState σ → List SocketPtr × ProcessState σ
  | [], st => ([], st)
  | socket :: rest, st =>
    let e := processEntry env fdset errset socket st
    let r := processLoop env fdset errset rest e.2
    (if e.1 then r.1 else socket :: r.1, r.2)

/-- The state of the loop of `select_nm_process` when it starts. -/
def processStart {σ : Type} (w : σ) : ProcessState σ :=
  { retval := UA_STATUSCODE_GOOD, world := w, calls := [] }

/-- The readiness wait of `select_nm_process`: both descriptor sets are filled
by `setFDSet`, and `UA_select` is called with `highestfd + 1` and the timeout
(a `UA_UInt16`, in milliseconds) turned into microseconds. -/
def readinessWait {σ : Type} (env : SocketEnv σ) (nm : SelectNMData) (timeout : Nat)
    (w : σ) : SelectResult :=
  let highestfd := (setFDSet env nm).2
  env.select (highestfd + 1) (setFDSet env nm).1 (setFDSet env nm).1
    (timeout % 2 ^ 16 * 1000) w

/-- The function `select_nm_process`.  The timeout is a `UA_UInt16`. -/
def select_nm_process {σ : Type} (env : SocketEnv σ) (nm : SelectNMData) (timeout : Nat)
    (w : σ) : NMResult σ :=
  let sel := readinessWait env nm timeout w
  if sel.ret < 0 then
    { status := UA_STATUSCODE_GOOD, internalData := nm, world := w, calls := [] }
  else
    let r := processLoop env sel.fdset sel.errset nm.sockets (processStart w)
    { status := r.2.retval, internalData := { nm with sockets := r.1 },
      world := r.2.world, calls := r.2.calls }

/-- Modelled from the spec: `UA_ByteString_copy` is defined outside the sources
at hand; the copy holds the bytes of the original. -/
def UA_ByteString_copy (src : UA_String) : UA_String := src

/-- The loop of `select_nm_getDiscoveryUrls` over an array of `n` strings.  A
cell of the array is `none` as long as nothing has been written into it (it
comes from `UA_malloc`).  The result is `none` when the loop leaves through the
bounds check. -/
def getDiscoveryUrlsLoop {σ : Type} (env : SocketEnv σ) (n : Nat) :
    List SocketPtr → Nat → List (Option UA_String) → Option (List (Option UA_String))
  | [], _, urls => some urls
  | socket :: rest, position, urls =>
    if env.isListener socket then
      if position ≥ n then none
      else getDiscoveryUrlsLoop env n rest (position + 1)
        (urls.set position (some (UA_ByteString_copy (env.discoveryUrl socket))))
    else getDiscoveryUrlsLoop env n rest position urls

/-- What `select_nm_getDiscoveryUrls` returns: the status and, when it is
written, the out-parameter `*discoveryUrls`. -/
structure DiscoveryUrlsResult where
  status : UA_StatusCode
  discoveryUrls : Option (List (Option UA_String))
  deriving DecidableEq, Repr

/-- The function `select_nm_getDiscoveryUrls`.  `mallocOk` tells whether the
allocation of the array succeeds. -/
def select_nm_getDiscoveryUrls {σ : Type} (env : SocketEnv σ) (mallocOk : Bool)
    (nm : SelectNMData) : DiscoveryUrlsResult :=
  if !mallocOk then
    { status := UA_STATUSCODE_BADOUTOFMEMORY, discoveryUrls := none }
  else
    match getDiscoveryUrlsLoop env nm.numListenerSockets nm.sockets 0
        (List.replicate nm.numListenerSockets none) with
    | none => { status := UA_STATUSCODE_BADINTERNALERROR, discoveryUrls := none }
    | some urls => { status := UA_STATUSCODE_GOOD, discoveryUrls := some urls }

/-- The loop of `select_nm_deleteMembers`: every entry is closed, freed and
unlinked; the entries left (none) and the state after the last entry. -/
def deleteMembersLoop {σ : Type} (env : SocketEnv σ) :
    List SocketPtr → σ × List Call → List SocketPtr × σ × List Call
  | [], st => ([], st)
  | socket :: rest, (w, calls) =>
    let w1 := env.close socket w
    let w2 := env.free socket w1
    deleteMembersLoop env rest (w2, calls ++ [Call.close socket, Call.free socket])

/-- The function `select_nm_deleteMembers`.  `internalData` of the result is the
manager's data as the loop leaves it, just before it is released. -/
def select_nm_deleteMembers {σ : Type} (env : SocketEnv σ) (nm : SelectNMData) (w : σ) :
    NMResult σ :=
  let r := deleteMembersLoop env nm.sockets (w, [])
  { status := UA_STATUSCODE_GOOD, internalData := { nm with sockets := r.1 },
    world := r.2.1, calls := r.2.2 }

/-! ## Reading the record of calls -/

/-- The status returned by the last `activity` call of a record of calls,
`GOOD` when there is none. -/
def lastActivityStatus (calls : List Call) : UA_StatusCode :=
  calls.foldl (fun acc c => match c with
    | Call.activity _ status => status
    | _ => acc) UA_STATUSCODE_GOOD

/-- The last status other than `GOOD` returned by an `activity` call of a
record of calls, `GOOD` when there is none: the aggregate the specification
words describe. -/
def lastNonSuccessStatus (calls : List Call) : UA_StatusCode :=
  calls.foldl (fun acc c => match c with
    | Call.activity _ status => if status ≠ UA_STATUSCODE_GOOD then status else acc
    | _ => acc) UA_STATUSCODE_GOOD

/-- The state of the loop of `select_nm_process` once it has handled the
entries `pre` that stand at the head of the list: the state in which the next
entry is reached. -/
def stateAfter {σ : Type} (env : SocketEnv σ) (sel : SelectResult) (pre : List SocketPtr)
    (w : σ) : ProcessState σ :=
  (processLoop env sel.fdset sel.errset pre (processStart w)).2

/-- A `close` followed by a `free` for each socket of a list, in the order of
the list. -/
def closeThenFreeEach : List SocketPtr → List Call
  | [] => []
  | s :: rest => Call.close s :: Call.free s :: closeThenFreeEach rest

/-- The registered sockets whose `isListener` flag is set, in list order. -/
def listeners {σ : Type} (env : SocketEnv σ) (l : List SocketPtr) : List SocketPtr :=
  l.filter env.isListener

/-- The cells of the result array that hold the discovery URLs of the given
sockets, in order. -/
def urlCells {σ : Type} (env : SocketEnv σ) (l : List SocketPtr) : List (Option UA_String) :=
  l.map (fun s => some (UA_ByteString_copy (env.discoveryUrl s)))

/-- A sequence of `select_nm_registerSocket` calls, one per socket of the list
and in the order of the list, each with a successful allocation: the manager's
data after the last call. -/
def registerAll {σ : Type} (nm : SelectNMData) (sockets : List SocketPtr) (w : σ) :
    SelectNMData :=
  sockets.foldl (fun d s => (select_nm_registerSocket true d s w).internalData) nm

/-! ## Sequences of calls on the manager -/

/-- One call on the manager from outside: `registerSocket` (with the outcome of
its allocation), `unregisterSocket`, or `process`. -/
inductive NMOp where
  | registerSocket (mallocOk : Bool) (socket : SocketPtr)
  | unregisterSocket (socket : SocketPtr)
  | process (timeout : Nat)
  deriving DecidableEq, Repr

/-- The manager's data and the sockets' state after one call. -/
def applyOp {σ : Type} (env : SocketEnv σ) (op : NMOp) (nm : SelectNMData) (w : σ) :
    SelectNMData × σ :=
  match op with
  | NMOp.registerSocket mallocOk socket =>
    ((select_nm_registerSocket mallocOk nm socket w).internalData,
     (select_nm_registerSocket mallocOk nm socket w).world)
  | NMOp.unregisterSocket socket =>
    ((select_nm_unregisterSocket nm socket w).internalData,
     (select_nm_unregisterSocket nm socket w).world)
  | NMOp.process timeout =>
    ((select_nm_process env nm timeout w).internalData,
     (select_nm_process env nm timeout w).world)

/-- The manager's data and the sockets' state after a sequence of calls, made
in the order of the list. -/
def runOps {σ : Type} (env : SocketEnv σ) : List NMOp → SelectNMData → σ → SelectNMData × σ
  | [], nm, w => (nm, w)
  | op :: rest, nm, w => runOps env rest (applyOp env op nm w).1 (applyOp env op nm w).2

/-- Every `registerSocket` call of the sequence is made with a socket that is
not registered at the moment of the call. -/
def registersFresh {σ : Type} (env : SocketEnv σ) : List NMOp → SelectNMData → σ → Bool
  | [], _, _ => true
  | op :: rest, nm, w =>
    (match op with
      | NMOp.registerSocket _ socket => !nm.sockets.contains socket
      | _ => true) &&
    registersFresh env rest (applyOp env op nm w).1 (applyOp env op nm w).2

/-- The single removal the specification speaks of: only the first entry whose
socket is `socket` is unlinked. -/
def unregisterFirst (socket : SocketPtr) : List SocketPtr → List SocketPtr
  | [] => []
  | entry :: rest =>
    if entry = socket then rest else entry :: unregisterFirst socket rest

/-- The recorded call invokes `activity` on `s`. -/
def Call.isActivityOf (s : SocketPtr) : Call → Bool
  | Call.activity t _ => t == s
  | _ => false

/-- The recorded call is a `mayDelete` call on `s`. -/
def Call.isMayDeleteOf (s : SocketPtr) : Call → Bool
  | Call.mayDelete t _ => t == s
  | _ => false

/-! ## The constructor -/

/-- The static functions of the file, as the values the function-pointer slots
of a `UA_NetworkManager` can hold. -/
inductive NMFunction where
  | select_nm_registerSocket
  | select_nm_unregisterSocket
  | select_nm_process
  | select_nm_getDiscoveryUrls
  | select_nm_deleteMembers
  deriving DecidableEq, Repr

/-- The fields of the struct `UA_NetworkManager` that the constructor writes.  A
slot is `none` while it holds the zero bytes of the `memset`; `internalData` is
`none` for `NULL`, otherwise the content of the `SelectNMData` it points at. -/
structure UA_NetworkManager where
  registerSocket : Option NMFunction
  unregisterSocket : Option NMFunction
  process : Option NMFunction
  getDiscoveryUrls : Option NMFunction
  deleteMembers : Option NMFunction
  internalData : Option SelectNMData
  deriving DecidableEq, Repr

/-- The function `UA_SelectBasedNetworkManager` (the logger left out).
`managerMallocOk` tells whether the first `UA_malloc` succeeds.  `dataBlock` is
the outcome of the second one, `UA_malloc(sizeof(SelectNMData))`: `none` when it
fails, otherwise what the fields `sockets` and `numListenerSockets` of the
block read as when `UA_malloc` hands it over, which `UA_malloc` does not fix.
The only store into the block is `internalData->logger = logger`.  The result
is the status and `*p_networkManager` as the function leaves it. -/
def UA_SelectBasedNetworkManager (managerMallocOk : Bool) (dataBlock : Option SelectNMData)
    (p_networkManager : Option UA_NetworkManager) :
    UA_StatusCode × Option UA_NetworkManager :=
  if !managerMallocOk then (UA_STATUSCODE_BADOUTOFMEMORY, p_networkManager)
  else
    match dataBlock with
    | none => (UA_STATUSCODE_BADOUTOFMEMORY, p_networkManager)
    | some internalData =>
      (UA_STATUSCODE_GOOD,
       some { registerSocket := some NMFunction.select_nm_registerSocket,
              unregisterSocket := some NMFunction.select_nm_unregisterSocket,
              process := some NMFunction.select_nm_process,
              getDiscoveryUrls := some NMFunction.select_nm_getDiscoveryUrls,
              deleteMembers := some NMFunction.select_nm_deleteMembers,
              internalData := some internalData })

/-- The manager's data a constructor call hands back, when it hands back a
manager at all. -/
def constructedData (result : UA_StatusCode × Option UA_NetworkManager) :
    Option SelectNMData :=
  result.2.bind (fun networkManager => networkManager.internalData)

end SelectNM

/-! # The dummy socket and the testing wrappers (`testing_socket.c`) -/

namespace TestingSocket

open SelectNM (UA_StatusCode UA_STATUSCODE_GOOD UA_STATUSCODE_BADCOMMUNICATIONERROR)

/-- A `UA_ByteString` as far as `testing_socket.c` looks at it: the `length`
field, and whether `data` points to memory. -/
structure UA_ByteString where
  length : Nat
  hasData : Bool
  deriving DecidableEq, Repr

/-- The file-level variables of the dummy socket: `vBuffer` (the caller's
verification buffer it points to, if any), `sendBuffer`, `sendBufferLength`. -/
structure DummyGlobals where
  vBuffer : Option UA_ByteString
  sendBuffer : UA_ByteString
  sendBufferLength : Nat
  deriving DecidableEq, Repr

/-- The struct `UA_SocketConfig`: two `UA_UInt32`. -/
structure UA_SocketConfig where
  recvBufferSize : Nat
  sendBufferSize : Nat
  deriving DecidableEq, Repr

/-- The fields of the `UA_Socket` that `createDummySocket` fills with data (the
function pointers it sets are the `dummy...` functions of the file). -/
structure UA_Socket where
  id : Nat
  socketConfig : UA_SocketConfig
  deriving DecidableEq, Repr

/-- Modelled from the spec: `UA_ByteString_allocBuffer` is defined outside the
sources at hand; it gives the string a buffer of the length asked for, or none
when the allocation fails. -/
def UA_ByteString_allocBuffer (allocOk : Bool) (length : Nat) : UA_ByteString :=
  if allocOk then { length := length, hasData := true } else { length := 0, hasData := false }

/-- The function `createDummySocket`.  `memset` leaves every field 0 that is
not assigned; the casts to `UA_UInt32` are reductions modulo `2 ^ 32`. -/
def createDummySocket (verificationBuffer : Option UA_ByteString) (allocOk : Bool)
    (_g : DummyGlobals) : UA_Socket × DummyGlobals :=
  let g : DummyGlobals :=
    { vBuffer := verificationBuffer,
      sendBuffer := UA_ByteString_allocBuffer allocOk 65536,
      sendBufferLength := 65536 }
  ({ id := 42,
     socketConfig :=
       { recvBufferSize := match verificationBuffer with
           | some vb => vb.length % 2 ^ 32
           | none => 0,
         sendBufferSize := g.sendBufferLength % 2 ^ 32 } }, g)

/-- What a `UA_ByteString *` may point to: the file's `sendBuffer`, or some
other string. -/
inductive BufferPtr where
  | sendBuffer
  | other (addr : Nat)
  deriving DecidableEq, Repr

/-- The function `dummyGetSendBuffer`: the status, the value of `*p_buf` after
the call (`none` is `NULL`), and the file-level variables after the call. -/
def dummyGetSendBuffer (length : Nat) (p_buf : Option BufferPtr) (g : DummyGlobals) :
    UA_StatusCode × Option BufferPtr × DummyGlobals :=
  if length > g.sendBufferLength then
    (UA_STATUSCODE_BADCOMMUNICATIONERROR, p_buf, g)
  else
    (UA_STATUSCODE_GOOD, some BufferPtr.sendBuffer,
     { g with sendBuffer := { g.sendBuffer with length := length } })

/-- The variables of the testing wrappers, the virtual clock, and the rest of
the program state `σ`. -/
structure TestingState (σ : Type) where
  UA_Socket_activityTesting_result : UA_StatusCode
  UA_Socket_recvTesting_result : UA_StatusCode
  UA_Socket_activitySleepDuration : Nat
  UA_Socket_recvSleepDuration : Nat
  UA_NetworkManager_processTesting_result : UA_StatusCode
  clock : Nat
  world : σ

/-- The function pointers `UA_Socket_activity`, `UA_Socket_recv` and
`UA_NetworkManager_process`: the real functions the wrappers stand in for.
They may read and write the whole state. -/
structure WrappedFunctions (σ : Type) where
  UA_Socket_activity : (sock : Nat) → (readActivity writeActivity : Bool) →
    TestingState σ → UA_StatusCode × TestingState σ
  UA_Socket_recv : (socket : Nat) → (timeout : Nat) →
    TestingState σ → UA_StatusCode × TestingState σ
  UA_NetworkManager_process : (networkManager : Nat) → (timeout : Nat) →
    TestingState σ → UA_StatusCode × TestingState σ

/-- Modelled from the spec: `UA_fakeSleep` is defined in `testing_clock.c`,
outside the sources at hand; it advances the virtual clock by the duration. -/
def UA_fakeSleep {σ : Type} (duration : Nat) (st : TestingState σ) : TestingState σ :=
  { st with clock := st.clock + duration }

/-- The function `UA_Socket_recvTesting`; `timeout` is the value of `*timeout`. -/
def UA_Socket_recvTesting {σ : Type} (fns : WrappedFunctions σ) (socket : Nat)
    (timeout : Nat) (st : TestingState σ) : UA_StatusCode × TestingState σ :=
  if st.UA_Socket_recvTesting_result ≠ UA_STATUSCODE_GOOD then
    let temp := st.UA_Socket_recvTesting_result
    let st1 := { st with UA_Socket_recvTesting_result := UA_STATUSCODE_GOOD }
    let st2 := UA_fakeSleep timeout st1
    (temp, { st2 with UA_Socket_recvSleepDuration := 0 })
  else
    let st1 := UA_fakeSleep st.UA_Socket_recvSleepDuration st
    fns.UA_Socket_recv socket timeout { st1 with UA_Socket_recvSleepDuration := 0 }

/-- The function `UA_Socket_activityTesting`. -/
def UA_Socket_activityTesting {σ : Type} (fns : WrappedFunctions σ) (sock : Nat)
    (readActivity writeActivity : Bool) (st : TestingState σ) :
    UA_StatusCode × TestingState σ :=
  if st.UA_Socket_activityTesting_result ≠ UA_STATUSCODE_GOOD then
    let temp := st.UA_Socket_activityTesting_result
    let st1 := { st with UA_Socket_activityTesting_result := UA_STATUSCODE_GOOD }
    let st2 := UA_fakeSleep st1.UA_Socket_activitySleepDuration st1
    (temp, { st2 with UA_Socket_activitySleepDuration := 0 })
  else
    let st1 := UA_fakeSleep st.UA_Socket_activitySleepDuration st
    fns.UA_Socket_activity sock readActivity writeActivity
      { st1 with UA_Socket_activitySleepDuration := 0 }

/-- The function `UA_NetworkManager_processTesting`. -/
def UA_NetworkManager_processTesting {σ : Type} (fns : WrappedFunctions σ)
    (networkManager : Nat) (timeout : Nat) (st : TestingState σ) :
    UA_StatusCode × TestingState σ :=
  if st.UA_NetworkManager_processTesting_result ≠ UA_STATUSCODE_GOOD then
    let temp := st.UA_NetworkManager_processTesting_result
    let st1 := { st with UA_NetworkManager_processTesting_result := UA_STATUSCODE_GOOD }
    (temp, UA_fakeSleep (if timeout = 0 then 1 else timeout) st1)
  else
    let r := fns.UA_NetworkManager_process networkManager timeout st
    (r.1, UA_fakeSleep (if timeout = 0 then 1 else timeout) r.2)

/-- Wrapped functions for examples: each returns the status `0x80AB0000` and
counts its call in the state `σ = Nat`. -/
def countingFunctions : WrappedFunctions Nat where
  UA_Socket_activity := fun _ _ _ st => (0x80AB0000, { st with world := st.world + 1 })
  UA_Socket_recv := fun _ _ st => (0x80AB0000, { st with world := st.world + 1 })
  UA_NetworkManager_process := fun _ _ st => (0x80AB0000, { st with world := st.world + 1 })

/-- A state for examples: the three result variables hold the given values,
the sleep durations of `activity` and `recv` are 3 and 5, the clock shows 100. -/
def exampleState (activityResult recvResult processResult : UA_StatusCode) :
    TestingState Nat :=
  { UA_Socket_activityTesting_result := activityResult,
    UA_Socket_recvTesting_result := recvResult,
    UA_Socket_activitySleepDuration := 3,
    UA_Socket_recvSleepDuration := 5,
    UA_NetworkManager_processTesting_result := processResult,
    clock := 100,
    world := 0 }

end TestingSocket

/-! # The chunked binary encoder (`check_chunking.c`)

The encoder itself (`UA_encodeBinary`, `UA_calcSizeBinary`) is not among the
sources at hand; only its test is.  The exchange callback `sendChunkMockUp` and
the two test cases are taken from the test, the encoder from the design
description. -/

namespace Chunking

/-- Modelled from the spec: a value together with its descriptor.  A
fixed-size primitive is given by its encoded bytes (1, 2, 4, 8 or 16 of them,
little-endian for numbers); a string or byte-string is null or a payload; an
array is null or a sequence of elements; a structure is its fields in declared
order; a variant is its one-byte encoding mask and its content. -/
inductive Value where
  | primitive (encoded : List Nat)
  | string (payload : Option (List Nat))
  | array (elements : Option (List Value))
  | struct (fields : List Value)
  | variant (mask : Nat) (content : Value)

/-- The `width` low bytes of a number, least significant first. -/
def littleEndian : Nat → Nat → List Nat
  | 0, _ => []
  | width + 1, n => n % 256 :: littleEndian width (n / 256)

/-- Modelled from the spec: a signed 32-bit integer on the wire: four bytes,
little-endian, two's complement. -/
def int32Bytes (i : Int) : List Nat :=
  littleEndian 4 (i % 2 ^ 32).toNat

mutual
/-- Modelled from the spec: `UA_calcSizeBinary` walks the value and adds up the
sizes by the encoding rules: a length prefix of 4 bytes for strings and
arrays, a mask of 1 byte for variants, no padding. -/
def calcSizeBinary : Value → Nat
  | Value.primitive encoded => encoded.length
  | Value.string none => 4
  | Value.string (some payload) => 4 + payload.length
  | Value.array none => 4
  | Value.array (some elements) => 4 + calcSizeList elements
  | Value.struct fields => calcSizeList fields
  | Value.variant _ content => 1 + calcSizeBinary content
/-- The sizes of the values of a list, added up. -/
def calcSizeList : List Value → Nat
  | [] => 0
  | v :: vs => calcSizeBinary v + calcSizeList vs
end

/-- The encoder's window and the variables of the test: the bytes between the
begin of the active chunk and the write cursor (`chunk`), the capacity of the
active chunk (`write_end` minus its begin), the capacities of the buffers
behind `buffers[bufIndex]`, the contents of the chunks left behind, and the
test's `counter` and `dataCount`. -/
structure EncodeState where
  chunk : List Nat
  capacity : Nat
  buffers : List Nat
  sent : List (List Nat)
  counter : Nat
  dataCount : Nat
  deriving DecidableEq, Repr

/-- The exchange callback `sendChunkMockUp` of the test: it adds the cursor
offset to `dataCount`, moves on to the next buffer and counts the call.  There
is no result when no buffer is left (the test would index past its array). -/
def sendChunkMockUp (st : EncodeState) : Option EncodeState :=
  match st.buffers with
  | [] => none
  | next :: rest =>
    some { chunk := [], capacity := next, buffers := rest,
           sent := st.sent ++ [st.chunk], counter := st.counter + 1,
           dataCount := st.dataCount + st.chunk.length }

/-- Modelled from the spec: a primitive is written completely within one
chunk; before writing a primitive of width `w`, if `write_cursor + w >
write_end`, the exchange callback is invoked first.  The encode fails (`none`)
when the callback fails or the fresh window is too small for the primitive. -/
def encodePrimitive (encoded : List Nat) (st : EncodeState) : Option EncodeState :=
  if st.chunk.length + encoded.length ≤ st.capacity then
    some { st with chunk := st.chunk ++ encoded }
  else
    match sendChunkMockUp st with
    | none => none
    | some st1 =>
      if encoded.length ≤ st1.capacity then some { st1 with chunk := encoded } else none

/-- Modelled from the spec: a payload is drained by as many full-chunk writes
as needed, the callback being invoked between chunks: what fits goes into the
active chunk, and while bytes remain the chunk is exchanged.  Each round uses up
one buffer, so `fuel` one more than the number of buffers is never used up. -/
def drainPayload : Nat → List Nat → EncodeState → Option EncodeState
  | 0, _, _ => none
  | fuel + 1, payload, st =>
    if payload.length ≤ st.capacity - st.chunk.length then
      some { st with chunk := st.chunk ++ payload }
    else
      match sendChunkMockUp
          { st with chunk := st.chunk ++ payload.take (st.capacity - st.chunk.length) } with
      | none => none
      | some st1 => drainPayload fuel (payload.drop (st.capacity - st.chunk.length)) st1

/-- The payload of a string or byte-string, drained into the chunks. -/
def encodePayload (payload : List Nat) (st : EncodeState) : Option EncodeState :=
  drainPayload (st.buffers.length + 1) payload st

mutual
/-- Modelled from the spec: `UA_encodeBinary` with the callback
`sendChunkMockUp`.  Strings and arrays start with their signed 32-bit length
(`-1` for null), written as one primitive; a string's payload is drained; the
elements of an array and the fields of a structure are encoded one after the
other; a variant is its mask byte and its content. -/
def encodeBinary : Value → EncodeState → Option EncodeState
  | Value.primitive encoded, st => encodePrimitive encoded st
  | Value.string none, st => encodePrimitive (int32Bytes (-1)) st
  | Value.string (some payload), st =>
    (encodePrimitive (int32Bytes payload.length) st).bind (encodePayload payload)
  | Value.array none, st => encodePrimitive (int32Bytes (-1)) st
  | Value.array (some elements), st =>
    (encodePrimitive (int32Bytes elements.length) st).bind (encodeList elements)
  | Value.struct fields, st => encodeList fields st
  | Value.variant mask content, st =>
    (encodePrimitive [mask] st).bind (encodeBinary content)
/-- The values of a list, encoded one after the other. -/
def encodeList : List Value → EncodeState → Option EncodeState
  | [], st => some st
  | v :: vs, st => (encodeBinary v st).bind (encodeList vs)
end

/-- The number of bytes written so far, as the test adds it up at the end:
`dataCount` plus the offset of the cursor in the last chunk. -/
def totalWritten (st : EncodeState) : Nat :=
  st.dataCount + st.chunk.length

/-- The set-up of both test cases: `chunkCount` buffers of `chunkSize` bytes,
the first of them the working buffer, `bufIndex`, `counter` and `dataCount` 0. -/
def testStart (chunkCount chunkSize : Nat) : EncodeState :=
  { chunk := [], capacity := chunkSize,
    buffers := List.replicate (chunkCount - 1) chunkSize,
    sent := [], counter := 0, dataCount := 0 }

/-- The value of `encodeArrayIntoFiveChunksShallWork`: a variant (mask: type
id 6 for `Int32`, array bit `0x80`) that wraps the array of the `Int32`
numbers 0 to 29. -/
def int32ArrayVariant : Value :=
  Value.variant 0x86
    (Value.array (some ((List.range 30).map (fun i => Value.primitive (int32Bytes i)))))

/-- The value of `encodeStringIntoFiveChunksShallWork`: a variant (mask: type
id 12 for `String`) that wraps the string of 120 bytes repeating `open62541`. -/
def stringVariant : Value :=
  Value.variant 12
    (Value.string (some ((List.range 120).map
      (fun i => [111, 112, 101, 110, 54, 50, 53, 52, 49].getD (i % 9) 0))))

/-- The primitives a value is made of, in encoding order; each byte of a
payload counts as a primitive of width 1. -/
def payloadPrimitives (payload : List Nat) : List (List Nat) :=
  payload.map (fun b => [b])

mutual
/-- The primitives a value is made of, in encoding order. -/
def primitives : Value → List (List Nat)
  | Value.primitive encoded => [encoded]
  | Value.string none => [int32Bytes (-1)]
  | Value.string (some payload) => int32Bytes payload.length :: payloadPrimitives payload
  | Value.array none => [int32Bytes (-1)]
  | Value.array (some elements) => int32Bytes elements.length :: primitivesList elements
  | Value.struct fields => primitivesList fields
  | Value.variant mask content => [mask] :: primitives content
/-- The primitives of the values of a list, in order. -/
def primitivesList : List Value → List (List Nat)
  | [] => []
  | v :: vs => primitives v ++ primitivesList vs
end

/-- Primitives written one after the other, each by `encodePrimitive`. -/
def encodePrimitives : List (List Nat) → EncodeState → Option EncodeState
  | [], st => some st
  | p :: ps, st => (encodePrimitive p st).bind (encodePrimitives ps)

/-- The number of primitives, of the given widths, that do not fit behind the
cursor when their turn comes: a primitive that fits moves the cursor on, one
that does not fit opens the next buffer and is put at its begin. -/
def exchangesNeeded : List Nat → Nat → Nat → List Nat → Nat
  | [], _, _, _ => 0
  | w :: ws, cursor, capacity, buffers =>
    if cursor + w ≤ capacity then exchangesNeeded ws (cursor + w) capacity buffers
    else
      match buffers with
      | [] => 0
      | next :: rest => 1 + exchangesNeeded ws w next rest

/-- The bytes counted in `dataCount` are those left behind in the exchanged
chunks. -/
def Accounted (st : EncodeState) : Prop :=
  st.dataCount = (st.sent.map List.length).sum

end Chunking

namespace SelectNM

/-! ## Properties of the embedding -/

/-- The predicate `mayDelete` is monotonic: once it holds of a socket, it still
holds after any callback of any socket has run. -/
def MayDeleteMonotonic {σ : Type} (env : SocketEnv σ) : Prop :=
  ∀ (p q : SocketPtr) (w : σ), env.mayDelete p w = true →
    env.mayDelete p (env.activity q w).2 = true ∧
    env.mayDelete p (env.close q w) = true ∧
    env.mayDelete p (env.free q w) = true

/-- The socket is reported readable or errored by the readiness wait. -/
def Selected {σ : Type} (env : SocketEnv σ) (sel : SelectResult) (s : SocketPtr) : Bool :=
  UA_fd_isset (env.id s) sel.errset || UA_fd_isset (env.id s) sel.fdset

/-- An environment for examples.  The state is the list of sockets that have
been closed; a socket may be deleted once it is closed or when its address is
at least 100; the activity of a socket with an odd address fails with status
`0x80010000`; every registered id is reported readable when `ret` is not
negative. -/
def exampleEnv (ret : Int) : SocketEnv (List SocketPtr) where
  id := fun s => s
  isListener := fun s => s % 2 == 0
  discoveryUrl := fun s => [s]
  activity := fun s w => (if s % 2 == 1 then 0x80010000 else UA_STATUSCODE_GOOD, w)
  mayDelete := fun s w => w.contains s || decide (100 ≤ s)
  close := fun s w => s :: w
  free := fun _ w => w
  select := fun _ readfds errfds _ _ => { ret := ret, fdset := readfds, errset := errfds }

theorem exampleEnv_monotonic (ret : Int) : MayDeleteMonotonic (exampleEnv ret) := by
  intro p q w h
  simp only [exampleEnv, List.contains_cons, Bool.or_eq_true, decide_eq_true_eq,
    List.contains_eq_any_beq, List.any_eq_true, beq_iff_eq, List.any_cons] at h ⊢
  refine ⟨h, ?_, h⟩
  rcases h with h | h
  · exact Or.inl (Or.inr h)
  · exact Or.inr h

theorem activityStep_mayDelete_preserved {σ : Type} (env : SocketEnv σ)
    (hmono : MayDeleteMonotonic env) (p q : SocketPtr)
    (st : ProcessState σ) (h : env.mayDelete p st.world = true) :
    env.mayDelete p (activityStep env q st).world = true := by
  unfold activityStep
  have hact := (hmono p q st.world h).1
  simp only
  split
  · exact (hmono p q _ hact).2.1
  · exact hact

theorem reapStep_mayDelete_preserved {σ : Type} (env : SocketEnv σ)
    (hmono : MayDeleteMonotonic env) (p q : SocketPtr)
    (st : ProcessState σ) (h : env.mayDelete p st.world = true) :
    env.mayDelete p (reapStep env q st).2.world = true := by
  unfold reapStep
  split
  · exact (hmono p q _ h).2.2
  · exact h

theorem reapStep_removes_deletable {σ : Type} (env : SocketEnv σ) (s : SocketPtr)
    (st : ProcessState σ) (h : env.mayDelete s st.world = true) :
    (reapStep env s st).1 = true := by
  simp [reapStep, h]

theorem processEntry_mayDelete_preserved {σ : Type} (env : SocketEnv σ)
    (hmono : MayDeleteMonotonic env) (fdset errset : fd_set) (p q : SocketPtr)
    (st : ProcessState σ) (h : env.mayDelete p st.world = true) :
    env.mayDelete p (processEntry env fdset errset q st).2.world = true := by
  unfold processEntry
  split
  · exact reapStep_mayDelete_preserved env hmono p q st h
  · exact reapStep_mayDelete_preserved env hmono p q _
      (activityStep_mayDelete_preserved env hmono p q st h)

theorem processEntry_removes_deletable {σ : Type} (env : SocketEnv σ)
    (hmono : MayDeleteMonotonic env) (fdset errset : fd_set) (s : SocketPtr)
    (st : ProcessState σ) (h : env.mayDelete s st.world = true) :
    (processEntry env fdset errset s st).1 = true := by
  unfold processEntry
  split
  · exact reapStep_removes_deletable env s st h
  · exact reapStep_removes_deletable env s _
      (activityStep_mayDelete_preserved env hmono s s st h)

theorem processLoop_removes_deletable {σ : Type} (env : SocketEnv σ)
    (hmono : MayDeleteMonotonic env) (fdset errset : fd_set) (s : SocketPtr)
    (l : List SocketPtr) (st : ProcessState σ) (h : env.mayDelete s st.world = true) :
    s ∉ (processLoop env fdset errset l st).1 := by
  induction l generalizing st with
  | nil => simp [processLoop]
  | cons q rest ih =>
    have hrest := ih (processEntry env fdset errset q st).2
      (processEntry_mayDelete_preserved env hmono fdset errset s q st h)
    simp only [processLoop]
    by_cases hq : q = s
    · subst hq
      rw [processEntry_removes_deletable env hmono fdset errset q st h]
      simpa using hrest
    · split
      · exact hrest
      · simp only [List.mem_cons, not_or]
        exact ⟨fun e => hq e.symm, hrest⟩

/-- C1, as amended: when the readiness wait does not fail and `mayDelete` is
monotonic, every socket that is registered and may be deleted when
`select_nm_process` is entered is no longer registered when it returns. -/
theorem process_reaps_deletable {σ : Type} (env : SocketEnv σ) (nm : SelectNMData)
    (timeout : Nat) (w : σ) (hmono : MayDeleteMonotonic env)
    (hwait : 0 ≤ (readinessWait env nm timeout w).ret)
    (s : SocketPtr) (_hreg : s ∈ nm.sockets) (hdel : env.mayDelete s w = true) :
    s ∉ (select_nm_process env nm timeout w).internalData.sockets := by
  unfold select_nm_process
  simp only [not_lt.mpr hwait, if_false]
  exact processLoop_removes_deletable env hmono _ _ s nm.sockets _ hdel

/-- Witness of C1: socket 100 may be deleted on entry and is reaped; socket 2
stays. -/
theorem process_reaps_deletable_witness :
    (100 ∈ ({ sockets := [2, 100], numListenerSockets := 0 } : SelectNMData).sockets ∧
      (exampleEnv 1).mayDelete 100 [] = true) ∧
    100 ∉ (select_nm_process (exampleEnv 1) { sockets := [2, 100], numListenerSockets := 0 }
      50 []).internalData.sockets ∧
    (select_nm_process (exampleEnv 1) { sockets := [2, 100], numListenerSockets := 0 }
      50 []).internalData.sockets = [2] :=
  ⟨⟨by decide, by decide⟩,
   process_reaps_deletable (exampleEnv 1) { sockets := [2, 100], numListenerSockets := 0 } 50 []
     (exampleEnv_monotonic 1) (by decide) 100 (by decide) (by decide),
   by decide⟩

/-- C1, as stated, fails: when the readiness wait fails, `select_nm_process`
returns at once, and a socket that may be deleted on entry stays registered. -/
theorem process_reaps_deletable_counterexample :
    ¬ (∀ (σ : Type) (env : SocketEnv σ) (nm : SelectNMData) (timeout : Nat) (w : σ),
        MayDeleteMonotonic env → ∀ s ∈ nm.sockets, env.mayDelete s w = true →
          s ∉ (select_nm_process env nm timeout w).internalData.sockets) := by
  intro h
  exact h (List SocketPtr) (exampleEnv (-1)) { sockets := [100], numListenerSockets := 0 } 50 []
    (exampleEnv_monotonic (-1)) 100 (by decide) (by decide) (by decide)

/-! ### The status returned by `select_nm_process` -/

theorem lastActivityStatus_append_activity (calls : List Call) (s : SocketPtr)
    (status : UA_StatusCode) (tail : List Call)
    (htail : ∀ c ∈ tail, ∀ t st, c ≠ Call.activity t st) :
    lastActivityStatus (calls ++ Call.activity s status :: tail) = status := by
  unfold lastActivityStatus
  rw [List.foldl_append, List.foldl_cons]
  simp only
  generalize List.foldl _ UA_STATUSCODE_GOOD calls = acc0
  clear acc0
  induction tail with
  | nil => rfl
  | cons c rest ih =>
    rw [List.foldl_cons]
    have hc := htail c (List.mem_cons_self _ _)
    have hrest := ih (fun d hd => htail d (List.mem_cons_of_mem _ hd))
    cases c with
    | activity t st => exact absurd rfl (hc t st)
    | mayDelete t b => exact hrest
    | close t => exact hrest
    | free t => exact hrest

theorem lastActivityStatus_append_other (calls tail : List Call)
    (htail : ∀ c ∈ tail, ∀ t st, c ≠ Call.activity t st) :
    lastActivityStatus (calls ++ tail) = lastActivityStatus calls := by
  unfold lastActivityStatus
  rw [List.foldl_append]
  generalize List.foldl _ UA_STATUSCODE_GOOD calls = acc
  induction tail with
  | nil => rfl
  | cons c rest ih =>
    rw [List.foldl_cons]
    have hc := htail c (List.mem_cons_self _ _)
    have hrest := ih (fun d hd => htail d (List.mem_cons_of_mem _ hd))
    cases c with
    | activity t st => exact absurd rfl (hc t st)
    | mayDelete t b => exact hrest
    | close t => exact hrest
    | free t => exact hrest

theorem activityStep_retval {σ : Type} (env : SocketEnv σ) (s : SocketPtr)
    (st : ProcessState σ) :
    (activityStep env s st).retval = lastActivityStatus (activityStep env s st).calls := by
  unfold activityStep
  simp only
  split
  · exact (lastActivityStatus_append_activity st.calls s _ [Call.close s]
      (by simp)).symm
  · exact (lastActivityStatus_append_activity st.calls s _ [] (by simp)).symm

theorem reapStep_retval {σ : Type} (env : SocketEnv σ) (s : SocketPtr)
    (st : ProcessState σ) (h : st.retval = lastActivityStatus st.calls) :
    (reapStep env s st).2.retval = lastActivityStatus (reapStep env s st).2.calls := by
  unfold reapStep
  split
  · simp only
    rw [lastActivityStatus_append_other _ _ (by simp)]
    exact h
  · simp only
    rw [lastActivityStatus_append_other _ _ (by simp)]
    exact h

theorem processEntry_retval {σ : Type} (env : SocketEnv σ) (fdset errset : fd_set)
    (s : SocketPtr) (st : ProcessState σ) (h : st.retval = lastActivityStatus st.calls) :
    (processEntry env fdset errset s st).2.retval =
      lastActivityStatus (processEntry env fdset errset s st).2.calls := by
  unfold processEntry
  split
  · exact reapStep_retval env s st h
  · exact reapStep_retval env s _ (activityStep_retval env s st)

theorem processLoop_retval {σ : Type} (env : SocketEnv σ) (fdset errset : fd_set)
    (l : List SocketPtr) (st : ProcessState σ) (h : st.retval = lastActivityStatus st.calls) :
    (processLoop env fdset errset l st).2.retval =
      lastActivityStatus (processLoop env fdset errset l st).2.calls := by
  induction l generalizing st with
  | nil => exact h
  | cons q rest ih =>
    simp only [processLoop]
    exact ih _ (processEntry_retval env fdset errset q st h)

/-- C2, as amended: `select_nm_process` returns the status of the last
`activity` call it made, whether that status is success or not, and success
when it made none. -/
theorem process_returns_last_activity_status {σ : Type} (env : SocketEnv σ)
    (nm : SelectNMData) (timeout : Nat) (w : σ) :
    (select_nm_process env nm timeout w).status =
      lastActivityStatus (select_nm_process env nm timeout w).calls := by
  unfold select_nm_process
  simp only
  split
  · rfl
  · exact processLoop_retval env _ _ nm.sockets (processStart w) rfl

/-- C2, as stated, fails: socket 1 is visited first and its activity fails with
`0x80010000`, socket 2 is visited next and its activity succeeds; the call
returns `GOOD`, not the failing status. -/
theorem process_returns_last_activity_status_counterexample :
    (select_nm_process (exampleEnv 1) { sockets := [1, 2], numListenerSockets := 0 }
      50 []).calls =
      [Call.activity 1 0x80010000, Call.close 1, Call.mayDelete 1 true, Call.free 1,
       Call.activity 2 UA_STATUSCODE_GOOD, Call.mayDelete 2 false] ∧
    (select_nm_process (exampleEnv 1) { sockets := [1, 2], numListenerSockets := 0 }
      50 []).status = UA_STATUSCODE_GOOD ∧
    lastNonSuccessStatus (select_nm_process (exampleEnv 1)
      { sockets := [1, 2], numListenerSockets := 0 } 50 []).calls = 0x80010000 ∧
    (select_nm_process (exampleEnv 1) { sockets := [1, 2], numListenerSockets := 0 }
      50 []).status ≠
      lastNonSuccessStatus (select_nm_process (exampleEnv 1)
        { sockets := [1, 2], numListenerSockets := 0 } 50 []).calls := by
  decide

/-! ### The loop of `select_nm_process`, entry by entry -/

theorem processLoop_append {σ : Type} (env : SocketEnv σ) (fdset errset : fd_set)
    (l1 l2 : List SocketPtr) (st : ProcessState σ) :
    processLoop env fdset errset (l1 ++ l2) st =
      ((processLoop env fdset errset l1 st).1 ++
        (processLoop env fdset errset l2 (processLoop env fdset errset l1 st).2).1,
       (processLoop env fdset errset l2 (processLoop env fdset errset l1 st).2).2) := by
  induction l1 generalizing st with
  | nil => simp [processLoop]
  | cons q rest ih =>
    simp only [List.cons_append, processLoop, List.append_eq]
    rw [ih]
    split <;> simp

theorem processLoop_sublist {σ : Type} (env : SocketEnv σ) (fdset errset : fd_set)
    (l : List SocketPtr) (st : ProcessState σ) :
    (processLoop env fdset errset l st).1.Sublist l := by
  induction l generalizing st with
  | nil => simp [processLoop]
  | cons q rest ih =>
    simp only [processLoop]
    split
    · exact (ih _).trans (List.sublist_cons_self q rest)
    · exact (ih _).cons₂ q

theorem activityStep_calls {σ : Type} (env : SocketEnv σ) (s : SocketPtr)
    (st : ProcessState σ) :
    (activityStep env s st).calls = st.calls ++
      (Call.activity s (env.activity s st.world).1 ::
        if (env.activity s st.world).1 ≠ UA_STATUSCODE_GOOD then [Call.close s] else []) := by
  unfold activityStep
  simp only
  split <;> simp

theorem reapStep_calls {σ : Type} (env : SocketEnv σ) (s : SocketPtr)
    (st : ProcessState σ) :
    (reapStep env s st).2.calls = st.calls ++
      (Call.mayDelete s (env.mayDelete s st.world) ::
        if env.mayDelete s st.world = true then [Call.free s] else []) := by
  unfold reapStep
  split <;> rename_i h <;> simp [h]

theorem reapStep_removed {σ : Type} (env : SocketEnv σ) (s : SocketPtr)
    (st : ProcessState σ) :
    (reapStep env s st).1 = env.mayDelete s st.world := by
  unfold reapStep
  split <;> rename_i h <;> simp [h]

theorem processEntry_calls {σ : Type} (env : SocketEnv σ) (fdset errset : fd_set)
    (s : SocketPtr) (st : ProcessState σ) :
    ∃ new, (processEntry env fdset errset s st).2.calls = st.calls ++ new ∧
      ∀ c ∈ new, c.socket = s := by
  unfold processEntry
  split
  · refine ⟨_, reapStep_calls env s st, ?_⟩
    intro c hc
    simp only [List.mem_cons] at hc
    rcases hc with h | h
    · simp [h, Call.socket]
    · split at h <;> simp at h
      simp [h, Call.socket]
  · refine ⟨_, by rw [reapStep_calls, activityStep_calls, List.append_assoc], ?_⟩
    intro c hc
    simp only [List.mem_append, List.mem_cons] at hc
    rcases hc with (h | h) | (h | h)
    · simp [h, Call.socket]
    · split at h <;> simp at h
      simp [h, Call.socket]
    · simp [h, Call.socket]
    · split at h <;> simp at h
      simp [h, Call.socket]

theorem processLoop_calls {σ : Type} (env : SocketEnv σ) (fdset errset : fd_set)
    (l : List SocketPtr) (st : ProcessState σ) :
    ∃ new, (processLoop env fdset errset l st).2.calls = st.calls ++ new ∧
      ∀ c ∈ new, c.socket ∈ l := by
  induction l generalizing st with
  | nil => exact ⟨[], by simp [processLoop], by simp⟩
  | cons q rest ih =>
    obtain ⟨n1, h1, hn1⟩ := processEntry_calls env fdset errset q st
    obtain ⟨n2, h2, hn2⟩ := ih (processEntry env fdset errset q st).2
    refine ⟨n1 ++ n2, ?_, ?_⟩
    · simp only [processLoop]
      rw [h2, h1, List.append_assoc]
    · intro c hc
      rcases List.mem_append.mp hc with h | h
      · exact (hn1 c h) ▸ List.mem_cons_self _ _
      · exact List.mem_cons_of_mem _ (hn2 c h)

/-- The loop over a list in which the entry `s` stands between `pre` and
`post`: what stays linked and the final state, in terms of the three parts. -/
theorem processLoop_split {σ : Type} (env : SocketEnv σ) (fdset errset : fd_set)
    (pre post : List SocketPtr) (s : SocketPtr) (st : ProcessState σ) :
    processLoop env fdset errset (pre ++ s :: post) st =
      ((processLoop env fdset errset pre st).1 ++
        (if (processEntry env fdset errset s (processLoop env fdset errset pre st).2).1
          then (processLoop env fdset errset post
            (processEntry env fdset errset s (processLoop env fdset errset pre st).2).2).1
          else s :: (processLoop env fdset errset post
            (processEntry env fdset errset s (processLoop env fdset errset pre st).2).2).1),
       (processLoop env fdset errset post
          (processEntry env fdset errset s (processLoop env fdset errset pre st).2).2).2) := by
  rw [processLoop_append]
  simp only [processLoop]

theorem processEntry_selected {σ : Type} (env : SocketEnv σ) (sel : SelectResult)
    (s : SocketPtr) (st : ProcessState σ) (h : Selected env sel s = true) :
    processEntry env sel.fdset sel.errset s st = reapStep env s (activityStep env s st) := by
  unfold processEntry
  unfold Selected at h
  rw [if_neg]
  intro hn
  simp only [Bool.and_eq_true, Bool.not_eq_true'] at hn
  simp [hn.1, hn.2] at h

theorem processEntry_not_selected {σ : Type} (env : SocketEnv σ) (sel : SelectResult)
    (s : SocketPtr) (st : ProcessState σ) (h : Selected env sel s = false) :
    processEntry env sel.fdset sel.errset s st = reapStep env s st := by
  unfold processEntry
  unfold Selected at h
  simp only [Bool.or_eq_false_iff] at h
  rw [if_pos]
  simp [h.1, h.2]

/-- One call of `select_nm_process` whose readiness wait does not fail, seen
from the entry `s` that stands between `pre` and `post`: the calls made up to
and including the visit of `s`, then calls on sockets of `post` only; and the
list that is left. -/
theorem process_visit {σ : Type} (env : SocketEnv σ) (nm : SelectNMData) (timeout : Nat)
    (w : σ) (pre post : List SocketPtr) (s : SocketPtr) (sel : SelectResult)
    (hsel : readinessWait env nm timeout w = sel) (hreg : nm.sockets = pre ++ s :: post)
    (hwait : 0 ≤ sel.ret) :
    ∃ after kept,
      (select_nm_process env nm timeout w).calls =
        (processEntry env sel.fdset sel.errset s (stateAfter env sel pre w)).2.calls ++ after ∧
      (∀ c ∈ after, c.socket ∈ post) ∧ kept.Sublist post ∧
      (select_nm_process env nm timeout w).internalData.sockets =
        (processLoop env sel.fdset sel.errset pre (processStart w)).1 ++
          (if (processEntry env sel.fdset sel.errset s (stateAfter env sel pre w)).1
            then kept else s :: kept) := by
  obtain ⟨after, hafter, hsock⟩ := processLoop_calls env sel.fdset sel.errset post
    (processEntry env sel.fdset sel.errset s (stateAfter env sel pre w)).2
  refine ⟨after, _, ?_, hsock, processLoop_sublist env sel.fdset sel.errset post
    (processEntry env sel.fdset sel.errset s (stateAfter env sel pre w)).2, ?_⟩
  · unfold select_nm_process
    simp only [hsel, not_lt.mpr hwait, if_false, hreg, processLoop_split]
    exact hafter
  · unfold select_nm_process
    simp only [hsel, not_lt.mpr hwait, if_false, hreg, processLoop_split]
    rfl

/-- C3: a registered socket `s` (the entry between `pre` and `post`) that the
readiness wait reports readable or errored and whose activity returns a
status other than success is closed right after its activity, within the same
call of `select_nm_process`; and when `mayDelete` holds after that close, the
call goes on to free it and unlinks the entry, so that what is left is a
sub-list of `pre ++ post` (without `s` altogether when `s` had that one
entry). -/
theorem process_closes_failing_socket {σ : Type} (env : SocketEnv σ) (nm : SelectNMData)
    (timeout : Nat) (w : σ) (pre post : List SocketPtr) (s : SocketPtr) (sel : SelectResult)
    (hsel : readinessWait env nm timeout w = sel) (hreg : nm.sockets = pre ++ s :: post)
    (hwait : 0 ≤ sel.ret) (hready : Selected env sel s = true)
    (hfail : (env.activity s (stateAfter env sel pre w).world).1 ≠ UA_STATUSCODE_GOOD) :
    (∃ after, (select_nm_process env nm timeout w).calls =
      (stateAfter env sel pre w).calls ++
        [Call.activity s (env.activity s (stateAfter env sel pre w).world).1, Call.close s] ++
        after) ∧
    (env.mayDelete s (env.close s (env.activity s (stateAfter env sel pre w).world).2) = true →
      (∃ after, (select_nm_process env nm timeout w).calls =
        (stateAfter env sel pre w).calls ++
          [Call.activity s (env.activity s (stateAfter env sel pre w).world).1, Call.close s,
           Call.mayDelete s true, Call.free s] ++ after) ∧
      (select_nm_process env nm timeout w).internalData.sockets.Sublist (pre ++ post) ∧
      (s ∉ pre → s ∉ post →
        s ∉ (select_nm_process env nm timeout w).internalData.sockets)) := by
  obtain ⟨after, kept, hcalls, _, hkept, hsockets⟩ :=
    process_visit env nm timeout w pre post s sel hsel hreg hwait
  rw [processEntry_selected env sel s _ hready, reapStep_calls, activityStep_calls] at hcalls
  rw [processEntry_selected env sel s _ hready, reapStep_removed] at hsockets
  have hworld : (activityStep env s (stateAfter env sel pre w)).world =
      env.close s (env.activity s (stateAfter env sel pre w).world).2 := by
    unfold activityStep
    simp only
    rw [if_pos hfail]
  rw [hworld] at hcalls hsockets
  simp only [hfail, if_true, ne_eq, not_false_eq_true] at hcalls
  refine ⟨⟨_, by rw [hcalls]; simp only [List.append_assoc, List.cons_append,
    List.nil_append]; rfl⟩, ?_⟩
  intro hdel
  rw [hdel] at hcalls hsockets
  simp only [if_true] at hcalls hsockets
  have hsub : (select_nm_process env nm timeout w).internalData.sockets.Sublist
      (pre ++ post) := by
    rw [hsockets]
    exact (processLoop_sublist env sel.fdset sel.errset pre (processStart w)).append hkept
  refine ⟨⟨after, by rw [hcalls]; simp⟩, hsub, ?_⟩
  intro hpre hpost hmem
  rcases List.mem_append.mp (hsub.subset hmem) with h | h
  · exact hpre h
  · exact hpost h

/-- Witness of C3: sockets 2, 1, 4 are registered and all reported readable;
the activity of socket 1 fails, socket 1 is closed, may be deleted after the
close, is freed and is unlinked. -/
theorem process_closes_failing_socket_witness :
    (select_nm_process (exampleEnv 1) { sockets := [2, 1, 4], numListenerSockets := 0 }
      50 []).calls =
      [Call.activity 2 UA_STATUSCODE_GOOD, Call.mayDelete 2 false,
       Call.activity 1 0x80010000, Call.close 1, Call.mayDelete 1 true, Call.free 1,
       Call.activity 4 UA_STATUSCODE_GOOD, Call.mayDelete 4 false] ∧
    1 ∉ (select_nm_process (exampleEnv 1) { sockets := [2, 1, 4], numListenerSockets := 0 }
      50 []).internalData.sockets :=
  ⟨by decide,
   ((process_closes_failing_socket (exampleEnv 1)
      { sockets := [2, 1, 4], numListenerSockets := 0 } 50 [] [2] [4] 1
      (readinessWait (exampleEnv 1) { sockets := [2, 1, 4], numListenerSockets := 0 } 50 [])
      rfl rfl (by decide) (by decide) (by decide)).2 (by decide)).2.2
      (by decide) (by decide)⟩

theorem processLoop_mayDelete_preserved {σ : Type} (env : SocketEnv σ)
    (hmono : MayDeleteMonotonic env) (fdset errset : fd_set) (p : SocketPtr)
    (l : List SocketPtr) (st : ProcessState σ) (h : env.mayDelete p st.world = true) :
    env.mayDelete p (processLoop env fdset errset l st).2.world = true := by
  induction l generalizing st with
  | nil => exact h
  | cons q rest ih =>
    simp only [processLoop]
    exact ih _ (processEntry_mayDelete_preserved env hmono fdset errset p q st h)

/-- C4: for a registered socket `s` that the readiness wait reports readable
or errored (its first entry standing between `pre` and `post`), the first call
`select_nm_process` makes on `s` is its `activity`: no call on `s` precedes
it, and `mayDelete` is evaluated, and `free` called, only after the activity
(and the close that follows a failing activity).  When `mayDelete` holds at
that evaluation, which under monotonicity includes the case that it held on
entry, the socket is freed and its entry unlinked before the call returns. -/
theorem process_activity_before_reap {σ : Type} (env : SocketEnv σ) (nm : SelectNMData)
    (timeout : Nat) (w : σ) (pre post : List SocketPtr) (s : SocketPtr) (sel : SelectResult)
    (hsel : readinessWait env nm timeout w = sel) (hreg : nm.sockets = pre ++ s :: post)
    (hwait : 0 ≤ sel.ret) (hready : Selected env sel s = true) (hfirst : s ∉ pre) :
    (∀ c ∈ (stateAfter env sel pre w).calls, c.socket ≠ s) ∧
    (∃ after, (select_nm_process env nm timeout w).calls =
      (stateAfter env sel pre w).calls ++
        (Call.activity s (env.activity s (stateAfter env sel pre w).world).1 ::
          if (env.activity s (stateAfter env sel pre w).world).1 ≠ UA_STATUSCODE_GOOD
            then [Call.close s] else []) ++
        (Call.mayDelete s
            (env.mayDelete s (activityStep env s (stateAfter env sel pre w)).world) ::
          if env.mayDelete s (activityStep env s (stateAfter env sel pre w)).world = true
            then [Call.free s] else []) ++ after) ∧
    (env.mayDelete s (activityStep env s (stateAfter env sel pre w)).world = true →
      (select_nm_process env nm timeout w).internalData.sockets.Sublist (pre ++ post) ∧
      (s ∉ post → s ∉ (select_nm_process env nm timeout w).internalData.sockets)) ∧
    (MayDeleteMonotonic env → env.mayDelete s w = true →
      env.mayDelete s (activityStep env s (stateAfter env sel pre w)).world = true) := by
  obtain ⟨after, kept, hcalls, _, hkept, hsockets⟩ :=
    process_visit env nm timeout w pre post s sel hsel hreg hwait
  rw [processEntry_selected env sel s _ hready, reapStep_calls, activityStep_calls] at hcalls
  rw [processEntry_selected env sel s _ hready, reapStep_removed] at hsockets
  refine ⟨?_, ⟨after, hcalls⟩, ?_, ?_⟩
  · obtain ⟨new, hnew, hmem⟩ := processLoop_calls env sel.fdset sel.errset pre (processStart w)
    intro c hc hs
    have hc2 : c ∈ new := by
      have : (stateAfter env sel pre w).calls = new := by
        unfold stateAfter
        rw [hnew]
        simp [processStart]
      rw [this] at hc
      exact hc
    exact hfirst (hs ▸ hmem c hc2)
  · intro hdel
    rw [hdel] at hsockets
    simp only [if_true] at hsockets
    have hsub : (select_nm_process env nm timeout w).internalData.sockets.Sublist
        (pre ++ post) := by
      rw [hsockets]
      exact (processLoop_sublist env sel.fdset sel.errset pre (processStart w)).append hkept
    refine ⟨hsub, ?_⟩
    intro hpost hmem
    rcases List.mem_append.mp (hsub.subset hmem) with h | h
    · exact hfirst h
    · exact hpost h
  · intro hmono hdel
    apply activityStep_mayDelete_preserved env hmono
    unfold stateAfter
    exact processLoop_mayDelete_preserved env hmono _ _ s pre (processStart w) hdel

/-- Witness of C4: socket 100 may be deleted already on entry and is reported
readable; it still gets its activity call first, and is then freed and
unlinked. -/
theorem process_activity_before_reap_witness :
    (select_nm_process (exampleEnv 1) { sockets := [2, 100, 4], numListenerSockets := 0 }
      50 []).calls =
      [Call.activity 2 UA_STATUSCODE_GOOD, Call.mayDelete 2 false,
       Call.activity 100 UA_STATUSCODE_GOOD, Call.mayDelete 100 true, Call.free 100,
       Call.activity 4 UA_STATUSCODE_GOOD, Call.mayDelete 4 false] ∧
    100 ∉ (select_nm_process (exampleEnv 1)
      { sockets := [2, 100, 4], numListenerSockets := 0 } 50 []).internalData.sockets :=
  ⟨by decide,
   ((process_activity_before_reap (exampleEnv 1)
      { sockets := [2, 100, 4], numListenerSockets := 0 } 50 [] [2] [4] 100
      (readinessWait (exampleEnv 1) { sockets := [2, 100, 4], numListenerSockets := 0 } 50 [])
      rfl rfl (by decide) (by decide) (by decide)).2.2.1 (by decide)).2 (by decide)⟩

/-! ### `select_nm_deleteMembers` -/

theorem deleteMembersLoop_spec {σ : Type} (env : SocketEnv σ) (l : List SocketPtr) (w : σ)
    (calls : List Call) :
    (deleteMembersLoop env l (w, calls)).1 = [] ∧
    (deleteMembersLoop env l (w, calls)).2.2 = calls ++ closeThenFreeEach l := by
  induction l generalizing w calls with
  | nil => simp [deleteMembersLoop, closeThenFreeEach]
  | cons q rest ih =>
    simp only [deleteMembersLoop, closeThenFreeEach]
    refine ⟨(ih _ _).1, ?_⟩
    rw [(ih _ _).2]
    simp

theorem closeThenFreeEach_count_close (s : SocketPtr) (l : List SocketPtr) :
    (closeThenFreeEach l).count (Call.close s) = l.count s := by
  induction l with
  | nil => rfl
  | cons q rest ih =>
    simp only [closeThenFreeEach, List.count_cons, ih]
    by_cases h : q = s <;> simp [h]

theorem closeThenFreeEach_count_free (s : SocketPtr) (l : List SocketPtr) :
    (closeThenFreeEach l).count (Call.free s) = l.count s := by
  induction l with
  | nil => rfl
  | cons q rest ih =>
    simp only [closeThenFreeEach, List.count_cons, ih]
    by_cases h : q = s <;> simp [h]

/-- C5: on a registration list without duplicates, `select_nm_deleteMembers`
returns success and leaves the list empty; the calls it makes are exactly a
`close` followed at once by a `free` for each registered socket, in list
order, so that every registered socket is closed once and freed once, the
close first, and no other socket is touched. -/
theorem deleteMembers_closes_then_frees {σ : Type} (env : SocketEnv σ) (nm : SelectNMData)
    (w : σ) (hnodup : nm.sockets.Nodup) :
    (select_nm_deleteMembers env nm w).status = UA_STATUSCODE_GOOD ∧
    (select_nm_deleteMembers env nm w).internalData.sockets = [] ∧
    (select_nm_deleteMembers env nm w).calls = closeThenFreeEach nm.sockets ∧
    (∀ s ∈ nm.sockets,
      (select_nm_deleteMembers env nm w).calls.count (Call.close s) = 1 ∧
      (select_nm_deleteMembers env nm w).calls.count (Call.free s) = 1) ∧
    (∀ s, s ∉ nm.sockets →
      (select_nm_deleteMembers env nm w).calls.count (Call.close s) = 0 ∧
      (select_nm_deleteMembers env nm w).calls.count (Call.free s) = 0) := by
  have hcalls : (select_nm_deleteMembers env nm w).calls = closeThenFreeEach nm.sockets := by
    unfold select_nm_deleteMembers
    simp [(deleteMembersLoop_spec env nm.sockets w []).2]
  refine ⟨rfl, ?_, hcalls, ?_, ?_⟩
  · unfold select_nm_deleteMembers
    exact (deleteMembersLoop_spec env nm.sockets w []).1
  · intro s hs
    rw [hcalls, closeThenFreeEach_count_close, closeThenFreeEach_count_free]
    exact ⟨List.count_eq_one_of_mem hnodup hs, List.count_eq_one_of_mem hnodup hs⟩
  · intro s hs
    rw [hcalls, closeThenFreeEach_count_close, closeThenFreeEach_count_free]
    exact ⟨List.count_eq_zero_of_not_mem hs, List.count_eq_zero_of_not_mem hs⟩

/-- Witness of C5: three distinct sockets are closed and freed in turn. -/
theorem deleteMembers_closes_then_frees_witness :
    (select_nm_deleteMembers (exampleEnv 1) { sockets := [3, 1, 2], numListenerSockets := 1 }
      []).calls =
      [Call.close 3, Call.free 3, Call.close 1, Call.free 1, Call.close 2, Call.free 2] ∧
    (select_nm_deleteMembers (exampleEnv 1) { sockets := [3, 1, 2], numListenerSockets := 1 }
      []).internalData.sockets = [] :=
  ⟨(deleteMembers_closes_then_frees (exampleEnv 1)
      { sockets := [3, 1, 2], numListenerSockets := 1 } [] (by decide)).2.2.1,
   (deleteMembers_closes_then_frees (exampleEnv 1)
      { sockets := [3, 1, 2], numListenerSockets := 1 } [] (by decide)).2.1⟩

/-! ### `select_nm_getDiscoveryUrls` -/

theorem take_succ_set {α : Type} (l : List α) (x : α) (pos : Nat) (h : pos < l.length) :
    (l.set pos x).take (pos + 1) = l.take pos ++ [x] := by
  rw [List.set_eq_take_append_cons_drop]
  simp [h, List.take_append_eq_append_take, Nat.min_eq_left (Nat.le_of_lt h)]

theorem drop_succ_add_set {α : Type} (l : List α) (x : α) (pos k : Nat) :
    (l.set pos x).drop (pos + 1 + k) = l.drop (pos + 1 + k) := by
  apply List.ext_getElem?
  intro i
  simp only [List.getElem?_drop, List.getElem?_set]
  split
  · omega
  · rfl

/-- The loop of `select_nm_getDiscoveryUrls`, in closed form: it leaves through
the bounds check exactly when the listeners do not fit behind `position`, and
otherwise writes their URLs into consecutive cells and touches no other cell. -/
theorem getDiscoveryUrlsLoop_spec {σ : Type} (env : SocketEnv σ) (n : Nat)
    (l : List SocketPtr) (position : Nat) (urls : List (Option UA_String))
    (hlen : urls.length = n) (hpos : position ≤ n) :
    getDiscoveryUrlsLoop env n l position urls =
      if position + (listeners env l).length ≤ n then
        some (urls.take position ++ urlCells env (listeners env l) ++
          urls.drop (position + (listeners env l).length))
      else none := by
  induction l generalizing position urls with
  | nil => simp [getDiscoveryUrlsLoop, listeners, urlCells, hpos]
  | cons q rest ih =>
    unfold getDiscoveryUrlsLoop
    by_cases hq : env.isListener q = true
    · have hl : listeners env (q :: rest) = q :: listeners env rest := by
        simp [listeners, List.filter_cons, hq]
      rw [if_pos hq, hl]
      by_cases hfull : position ≥ n
      · rw [if_pos hfull, if_neg]
        simp only [List.length_cons]
        omega
      · rw [if_neg hfull]
        have hlt : position < urls.length := by omega
        rw [ih (position + 1) _ (by simp [hlen]) (by omega)]
        have e1 : position + 1 + (listeners env rest).length =
            position + (q :: listeners env rest).length := by
          simp only [List.length_cons]
          omega
        by_cases hfit : position + 1 + (listeners env rest).length ≤ n
        · rw [if_pos hfit, if_pos (e1 ▸ hfit), take_succ_set _ _ _ hlt, drop_succ_add_set,
            ← e1]
          simp [urlCells]
        · rw [if_neg hfit, if_neg (e1 ▸ hfit)]
    · have hl : listeners env (q :: rest) = listeners env rest := by
        simp [listeners, List.filter_cons, hq]
      rw [if_neg hq, hl]
      exact ih position urls hlen hpos

/-- When its allocation succeeds, `select_nm_getDiscoveryUrls` fails with the
internal-error status exactly when there are more listeners than
`numListenerSockets`; otherwise it succeeds with an array of
`numListenerSockets` cells, the first of which hold the listeners' URLs in
list order while the others are never written. -/
theorem getDiscoveryUrls_spec {σ : Type} (env : SocketEnv σ) (nm : SelectNMData) :
    select_nm_getDiscoveryUrls env true nm =
      if (listeners env nm.sockets).length ≤ nm.numListenerSockets then
        { status := UA_STATUSCODE_GOOD,
          discoveryUrls := some (urlCells env (listeners env nm.sockets) ++
            List.replicate (nm.numListenerSockets - (listeners env nm.sockets).length) none) }
      else { status := UA_STATUSCODE_BADINTERNALERROR, discoveryUrls := none } := by
  unfold select_nm_getDiscoveryUrls
  simp only [Bool.not_true, Bool.false_eq_true, if_false]
  rw [getDiscoveryUrlsLoop_spec env _ _ 0 _ (by simp) (Nat.zero_le _)]
  simp only [Nat.zero_add]
  by_cases h : (listeners env nm.sockets).length ≤ nm.numListenerSockets
  · simp [h]
  · simp [h]

theorem registerAll_sockets {σ : Type} (nm : SelectNMData) (sockets : List SocketPtr)
    (w : σ) :
    (registerAll nm sockets w).sockets = sockets.reverse ++ nm.sockets ∧
    (registerAll nm sockets w).numListenerSockets = nm.numListenerSockets := by
  induction sockets generalizing nm with
  | nil => simp [registerAll]
  | cons q rest ih =>
    have h := ih (select_nm_registerSocket true nm q w).internalData
    simp only [registerAll, List.foldl_cons] at h ⊢
    rw [h.1, h.2]
    simp [select_nm_registerSocket]

theorem listeners_append {σ : Type} (env : SocketEnv σ) (l1 l2 : List SocketPtr) :
    listeners env (l1 ++ l2) = listeners env l1 ++ listeners env l2 := by
  simp [listeners]

theorem listeners_reverse {σ : Type} (env : SocketEnv σ) (l : List SocketPtr) :
    listeners env l.reverse = (listeners env l).reverse := by
  simp [listeners, List.filter_reverse]

/-- C6, failing input: `numListenerSockets` is 2 and one listener (socket 2) is
registered; the call succeeds and hands back an array whose second cell was
never written. -/
theorem getDiscoveryUrls_leaves_cell_unwritten :
    select_nm_getDiscoveryUrls (exampleEnv 1) true
      { sockets := [2, 1], numListenerSockets := 2 } =
      { status := UA_STATUSCODE_GOOD, discoveryUrls := some [some [2], none] } := by
  decide

/-- C7, as amended: after a sequence of successful `select_nm_registerSocket`
calls, a successful `select_nm_getDiscoveryUrls` hands back an array that
starts with the discovery URLs of the listeners among the newly registered
sockets in reverse registration order (the most recently registered first),
followed by those of the listeners registered before. -/
theorem getDiscoveryUrls_reverse_registration_order {σ : Type} (env : SocketEnv σ)
    (nm : SelectNMData) (sockets : List SocketPtr) (w : σ)
    (hok : (select_nm_getDiscoveryUrls env true (registerAll nm sockets w)).status =
      UA_STATUSCODE_GOOD) :
    ∃ tail, (select_nm_getDiscoveryUrls env true (registerAll nm sockets w)).discoveryUrls =
      some ((urlCells env (listeners env sockets)).reverse ++
        urlCells env (listeners env nm.sockets) ++ tail) := by
  rw [getDiscoveryUrls_spec] at hok ⊢
  by_cases h : (listeners env (registerAll nm sockets w).sockets).length ≤
      (registerAll nm sockets w).numListenerSockets
  · rw [if_pos h]
    refine ⟨List.replicate ((registerAll nm sockets w).numListenerSockets -
      (listeners env (registerAll nm sockets w).sockets).length) none, ?_⟩
    simp [(registerAll_sockets nm sockets w).1, listeners_append, listeners_reverse,
      urlCells, List.map_append, List.map_reverse]
  · rw [if_neg h] at hok
    exact absurd hok (by decide)

/-- Witness of C7: sockets 2, 3, 4 are registered in this order (2 and 4 are
listeners); the array holds the URL of 4 before the URL of 2. -/
theorem getDiscoveryUrls_reverse_registration_order_witness :
    ∃ tail, (select_nm_getDiscoveryUrls (exampleEnv 1) true
      (registerAll { sockets := [], numListenerSockets := 2 } [2, 3, 4]
        ([] : List SocketPtr))).discoveryUrls =
      some ((urlCells (exampleEnv 1) (listeners (exampleEnv 1) [2, 3, 4])).reverse ++
        urlCells (exampleEnv 1) (listeners (exampleEnv 1) []) ++ tail) :=
  getDiscoveryUrls_reverse_registration_order (exampleEnv 1)
    { sockets := [], numListenerSockets := 2 } [2, 3, 4] [] (by decide)

/-- C7, as stated, fails: listener 2 is registered before listener 4, and the
URL of 2 lands at index 1, behind the URL of 4 at index 0. -/
theorem getDiscoveryUrls_reverse_registration_order_counterexample :
    (select_nm_getDiscoveryUrls (exampleEnv 1) true
      (registerAll { sockets := [], numListenerSockets := 2 } [2, 4]
        ([] : List SocketPtr))) =
      { status := UA_STATUSCODE_GOOD,
        discoveryUrls := some [some ((exampleEnv 1).discoveryUrl 4),
                               some ((exampleEnv 1).discoveryUrl 2)] } ∧
    (exampleEnv 1).discoveryUrl 2 ≠ (exampleEnv 1).discoveryUrl 4 ∧
    (exampleEnv 1).isListener 2 = true ∧ (exampleEnv 1).isListener 4 = true := by
  decide

/-- C8, failing input: `numListenerSockets` is 3 and a single listener is
registered; the counts differ, yet the call returns success, not the
internal-error status. -/
theorem getDiscoveryUrls_undercount_succeeds :
    (listeners (exampleEnv 1) [4, 5]).length = 1 ∧
    (select_nm_getDiscoveryUrls (exampleEnv 1) true
      { sockets := [4, 5], numListenerSockets := 3 }).status = UA_STATUSCODE_GOOD ∧
    (select_nm_getDiscoveryUrls (exampleEnv 1) true
      { sockets := [4, 5], numListenerSockets := 3 }).status ≠
      UA_STATUSCODE_BADINTERNALERROR := by
  decide

/-! ### `select_nm_unregisterSocket` -/

theorem unregisterLoop_eq_filter (s : SocketPtr) (l : List SocketPtr) :
    unregisterLoop s l = l.filter (fun e => e != s) := by
  induction l with
  | nil => rfl
  | cons q rest ih =>
    unfold unregisterLoop
    by_cases h : q = s
    · rw [if_pos h, ih, List.filter_cons_of_neg (by simp [h])]
    · rw [if_neg h, ih, List.filter_cons_of_pos (by simp [h])]

/-- C9: `select_nm_unregisterSocket` returns success; the list it leaves is
the old list without the entries for `s`, the other entries in their old
order; it calls no callback of any socket (so neither `close` nor `free`) and
leaves the sockets' state and the listener count alone; and when `s` was not
registered the manager's data is unchanged. -/
theorem unregisterSocket_frame {σ : Type} (nm : SelectNMData) (s : SocketPtr) (w : σ) :
    (select_nm_unregisterSocket nm s w).status = UA_STATUSCODE_GOOD ∧
    (select_nm_unregisterSocket nm s w).internalData.sockets =
      nm.sockets.filter (fun e => e != s) ∧
    s ∉ (select_nm_unregisterSocket nm s w).internalData.sockets ∧
    (select_nm_unregisterSocket nm s w).calls = [] ∧
    (select_nm_unregisterSocket nm s w).world = w ∧
    (select_nm_unregisterSocket nm s w).internalData.numListenerSockets =
      nm.numListenerSockets ∧
    (s ∉ nm.sockets → (select_nm_unregisterSocket nm s w).internalData = nm) := by
  have hf : (select_nm_unregisterSocket nm s w).internalData.sockets =
      nm.sockets.filter (fun e => e != s) := unregisterLoop_eq_filter s nm.sockets
  refine ⟨rfl, hf, ?_, rfl, rfl, rfl, ?_⟩
  · rw [hf]
    simp
  · intro hs
    have hsame : unregisterLoop s nm.sockets = nm.sockets := by
      rw [unregisterLoop_eq_filter, List.filter_eq_self]
      intro e he
      simp only [bne_iff_ne, ne_eq]
      intro h
      exact hs (h ▸ he)
    unfold select_nm_unregisterSocket
    simp [hsame]

/-! ### A failing readiness wait -/

/-- C10: when the readiness wait returns a negative value, `select_nm_process`
returns success and calls no callback of any socket (no `activity`, no
`close`, nor any other); the manager's data and the sockets' state are as
before. -/
theorem process_wait_failure {σ : Type} (env : SocketEnv σ) (nm : SelectNMData)
    (timeout : Nat) (w : σ) (hwait : (readinessWait env nm timeout w).ret < 0) :
    (select_nm_process env nm timeout w).status = UA_STATUSCODE_GOOD ∧
    (select_nm_process env nm timeout w).calls = [] ∧
    (select_nm_process env nm timeout w).internalData = nm ∧
    (select_nm_process env nm timeout w).world = w := by
  unfold select_nm_process
  simp only [hwait, if_true, and_self]

/-- Witness of C10: the wait returns -1 with a failing socket and a deletable
socket registered; nothing is called and both stay registered. -/
theorem process_wait_failure_witness :
    (readinessWait (exampleEnv (-1)) { sockets := [1, 100], numListenerSockets := 0 }
      50 []).ret < 0 ∧
    (select_nm_process (exampleEnv (-1)) { sockets := [1, 100], numListenerSockets := 0 }
      50 []).calls = [] ∧
    (select_nm_process (exampleEnv (-1)) { sockets := [1, 100], numListenerSockets := 0 }
      50 []).status = UA_STATUSCODE_GOOD :=
  ⟨by decide,
   (process_wait_failure (exampleEnv (-1)) { sockets := [1, 100], numListenerSockets := 0 }
      50 [] (by decide)).2.1,
   (process_wait_failure (exampleEnv (-1)) { sockets := [1, 100], numListenerSockets := 0 }
      50 [] (by decide)).1⟩

/-! ### One visit per entry -/

/-- The calls the loop body makes for the entry `s` when it reaches it in
state `st`: for a socket reported readable or errored the activity, the close
after a failing activity, then the `mayDelete` check and the `free` after a
positive answer; for another socket the check and the `free` only. -/
theorem processEntry_calls_eq {σ : Type} (env : SocketEnv σ) (sel : SelectResult)
    (s : SocketPtr) (st : ProcessState σ) :
    (processEntry env sel.fdset sel.errset s st).2.calls = st.calls ++
      ((if Selected env sel s = true then
          Call.activity s (env.activity s st.world).1 ::
            (if (env.activity s st.world).1 ≠ UA_STATUSCODE_GOOD then [Call.close s] else [])
        else []) ++
       (Call.mayDelete s (processEntry env sel.fdset sel.errset s st).1 ::
          (if (processEntry env sel.fdset sel.errset s st).1 = true then [Call.free s]
            else []))) := by
  by_cases h : Selected env sel s = true
  · rw [processEntry_selected env sel s st h, reapStep_calls, activityStep_calls,
      reapStep_removed, if_pos h]
    simp only [List.append_assoc]
  · have hf : Selected env sel s = false := by simpa using h
    rw [processEntry_not_selected env sel s st hf, reapStep_calls, reapStep_removed, if_neg h]
    simp

/-- One call of `select_nm_process` whose readiness wait does not fail, on a
list without duplicates, seen from the socket `s`: the calls are those of the
visit of `s`, between calls that are all on other sockets; and `s` stays
registered exactly when its entry is not unlinked by the visit. -/
theorem process_visit_nodup {σ : Type} (env : SocketEnv σ) (nm : SelectNMData)
    (timeout : Nat) (w : σ) (pre post : List SocketPtr) (s : SocketPtr) (sel : SelectResult)
    (hsel : readinessWait env nm timeout w = sel) (hreg : nm.sockets = pre ++ s :: post)
    (hwait : 0 ≤ sel.ret) (hnodup : nm.sockets.Nodup) :
    ∃ before after,
      (select_nm_process env nm timeout w).calls =
        before ++
          ((if Selected env sel s = true then
              Call.activity s (env.activity s (stateAfter env sel pre w).world).1 ::
                (if (env.activity s (stateAfter env sel pre w).world).1 ≠ UA_STATUSCODE_GOOD
                  then [Call.close s] else [])
            else []) ++
           (Call.mayDelete s
                (processEntry env sel.fdset sel.errset s (stateAfter env sel pre w)).1 ::
              (if (processEntry env sel.fdset sel.errset s (stateAfter env sel pre w)).1 = true
                then [Call.free s] else []))) ++ after ∧
      (∀ c ∈ before, c.socket ≠ s) ∧ (∀ c ∈ after, c.socket ≠ s) ∧
      (s ∈ (select_nm_process env nm timeout w).internalData.sockets ↔
        (processEntry env sel.fdset sel.errset s (stateAfter env sel pre w)).1 = false) := by
  rw [hreg] at hnodup
  have hpre : s ∉ pre := fun h =>
    (List.nodup_append.mp hnodup).2.2 h (List.mem_cons_self s post)
  have hpost : s ∉ post := (List.nodup_cons.mp (List.nodup_append.mp hnodup).2.1).1
  obtain ⟨after, kept, hcalls, hafter, hkept, hsockets⟩ :=
    process_visit env nm timeout w pre post s sel hsel hreg hwait
  obtain ⟨new, hnew, hmem⟩ := processLoop_calls env sel.fdset sel.errset pre (processStart w)
  have hbefore : (stateAfter env sel pre w).calls = new := by
    unfold stateAfter
    rw [hnew]
    simp [processStart]
  refine ⟨new, after, ?_, ?_, ?_, ?_⟩
  · rw [hcalls, processEntry_calls_eq, hbefore]
  · intro c hc hs
    exact hpre (hs ▸ hmem c hc)
  · intro c hc hs
    exact hpost (hs ▸ hafter c hc)
  · rw [hsockets]
    have hkeptPre : s ∉ (processLoop env sel.fdset sel.errset pre (processStart w)).1 :=
      fun h => hpre ((processLoop_sublist env sel.fdset sel.errset pre _).subset h)
    have hkeptPost : s ∉ kept := fun h => hpost (hkept.subset h)
    cases hrem : (processEntry env sel.fdset sel.errset s (stateAfter env sel pre w)).1
    · simp
    · simp [hkeptPre, hkeptPost]

theorem sublist_eq_filter_of_nodup {α : Type} (P : α → Bool) (l' l : List α)
    (hsub : l'.Sublist l) (hnodup : l.Nodup) (hmem : ∀ x ∈ l, x ∈ l' ↔ P x = true) :
    l' = l.filter P := by
  induction hsub with
  | slnil => rfl
  | @cons l1 l2 a h ih =>
    have hn := List.nodup_cons.mp hnodup
    have ha : P a = false := by
      cases hP : P a
      · rfl
      · exact absurd (h.subset ((hmem a (List.mem_cons_self a l2)).mpr hP)) hn.1
    rw [List.filter_cons_of_neg (by simp [ha])]
    exact ih hn.2 (fun x hx => hmem x (List.mem_cons_of_mem a hx))
  | @cons₂ l1 l2 a h ih =>
    have hn := List.nodup_cons.mp hnodup
    have ha : P a = true := (hmem a (List.mem_cons_self a l2)).mp (List.mem_cons_self a l1)
    rw [List.filter_cons_of_pos ha]
    congr 1
    apply ih hn.2
    intro x hx
    have hxa : x ≠ a := fun e => hn.1 (e ▸ hx)
    rw [← hmem x (List.mem_cons_of_mem a hx)]
    simp [hxa]

theorem isActivityOf_socket (s : SocketPtr) (c : Call) (h : Call.isActivityOf s c = true) :
    c.socket = s := by
  cases c <;> simp_all [Call.isActivityOf, Call.socket]

/-- C17: on a registration list without duplicates and after a readiness wait
that did not fail, the list `select_nm_process` leaves is the old list
restricted to the sockets whose `mayDelete` check returned false in this call,
in the old order; and for a socket that is neither readable nor errored and
whose check returned false, that check is the only call made on it (no
`activity`, no `close`, no `free`). -/
theorem process_keeps_undeletable {σ : Type} (env : SocketEnv σ) (nm : SelectNMData)
    (timeout : Nat) (w : σ) (sel : SelectResult)
    (hsel : readinessWait env nm timeout w = sel) (hwait : 0 ≤ sel.ret)
    (hnodup : nm.sockets.Nodup) :
    (select_nm_process env nm timeout w).internalData.sockets =
      nm.sockets.filter (fun s =>
        decide (Call.mayDelete s false ∈ (select_nm_process env nm timeout w).calls)) ∧
    (∀ s ∈ nm.sockets, Selected env sel s = false →
      Call.mayDelete s false ∈ (select_nm_process env nm timeout w).calls →
      (select_nm_process env nm timeout w).calls.filter (fun c => c.socket == s) =
        [Call.mayDelete s false]) := by
  have hkey : ∀ s ∈ nm.sockets,
      (s ∈ (select_nm_process env nm timeout w).internalData.sockets ↔
        Call.mayDelete s false ∈ (select_nm_process env nm timeout w).calls) ∧
      (Selected env sel s = false →
        Call.mayDelete s false ∈ (select_nm_process env nm timeout w).calls →
        (select_nm_process env nm timeout w).calls.filter (fun c => c.socket == s) =
          [Call.mayDelete s false]) := by
    intro s hs
    obtain ⟨pre, post, hreg⟩ := List.append_of_mem hs
    obtain ⟨before, after, hcalls, hbefore, hafter, hiff⟩ :=
      process_visit_nodup env nm timeout w pre post s sel hsel hreg hwait hnodup
    have hnb : Call.mayDelete s false ∉ before := fun h => hbefore _ h rfl
    have hna : Call.mayDelete s false ∉ after := fun h => hafter _ h rfl
    have hfb : before.filter (fun c => c.socket == s) = [] :=
      List.filter_eq_nil_iff.mpr (fun c hc => by simpa using hbefore c hc)
    have hfa : after.filter (fun c => c.socket == s) = [] :=
      List.filter_eq_nil_iff.mpr (fun c hc => by simpa using hafter c hc)
    rw [hcalls, hiff]
    constructor
    · cases hrem : (processEntry env sel.fdset sel.errset s (stateAfter env sel pre w)).1 <;>
        by_cases hS : Selected env sel s = true <;>
        by_cases hrv : (env.activity s (stateAfter env sel pre w).world).1 =
          UA_STATUSCODE_GOOD <;>
        simp [hS, hrv, hnb, hna]
    · intro hS hin
      have hrem : (processEntry env sel.fdset sel.errset s (stateAfter env sel pre w)).1 =
          false := by
        cases hrem : (processEntry env sel.fdset sel.errset s (stateAfter env sel pre w)).1
        · rfl
        · rw [hrem] at hin
          simp [hS, hnb, hna] at hin
      rw [List.filter_append, List.filter_append, hfb, hfa]
      simp [hS, hrem, Call.socket]
  refine ⟨?_, fun s hs => (hkey s hs).2⟩
  apply sublist_eq_filter_of_nodup _ _ _ _ hnodup
  · intro s hs
    rw [(hkey s hs).1]
    simp
  · unfold select_nm_process
    simp only [hsel, not_lt.mpr hwait, if_false]
    exact processLoop_sublist env _ _ nm.sockets _

/-- Witness of C17: of the sockets 2, 100, 3, 4 all but 3 are reported
readable; 100 may be deleted and is reaped, the others stay in their order, and
socket 3 gets its `mayDelete` check and nothing else. -/
theorem process_keeps_undeletable_witness :
    (select_nm_process
      { exampleEnv 1 with select := fun _ _ _ _ _ =>
          { ret := 3, fdset := [2, 100, 4], errset := [] } }
      { sockets := [2, 100, 3, 4], numListenerSockets := 0 } 50 []).internalData.sockets =
      [2, 3, 4] ∧
    (select_nm_process
      { exampleEnv 1 with select := fun _ _ _ _ _ =>
          { ret := 3, fdset := [2, 100, 4], errset := [] } }
      { sockets := [2, 100, 3, 4], numListenerSockets := 0 } 50 []).calls.filter
        (fun c => c.socket == 3) = [Call.mayDelete 3 false] :=
  ⟨((process_keeps_undeletable
      { exampleEnv 1 with select := fun _ _ _ _ _ =>
          { ret := 3, fdset := [2, 100, 4], errset := [] } }
      { sockets := [2, 100, 3, 4], numListenerSockets := 0 } 50 []
      { ret := 3, fdset := [2, 100, 4], errset := [] } rfl (by decide) (by decide)).1).trans
      (by decide),
   (process_keeps_undeletable
      { exampleEnv 1 with select := fun _ _ _ _ _ =>
          { ret := 3, fdset := [2, 100, 4], errset := [] } }
      { sockets := [2, 100, 3, 4], numListenerSockets := 0 } 50 []
      { ret := 3, fdset := [2, 100, 4], errset := [] } rfl (by decide) (by decide)).2
      3 (by decide) (by decide) (by decide)⟩

/-- C18, as amended: within one `select_nm_process` call on a registration list
without duplicates, the `activity` of a registered socket is invoked exactly
once when the readiness wait did not fail and reported the socket readable or
errored, and not at all otherwise; and its `free` is invoked at most once. -/
theorem process_activity_once {σ : Type} (env : SocketEnv σ) (nm : SelectNMData)
    (timeout : Nat) (w : σ) (sel : SelectResult)
    (hsel : readinessWait env nm timeout w = sel) (hnodup : nm.sockets.Nodup)
    (s : SocketPtr) (hs : s ∈ nm.sockets) :
    (select_nm_process env nm timeout w).calls.countP (Call.isActivityOf s) =
      (if 0 ≤ sel.ret ∧ Selected env sel s = true then 1 else 0) ∧
    (select_nm_process env nm timeout w).calls.count (Call.free s) ≤ 1 := by
  by_cases hwait : 0 ≤ sel.ret
  · obtain ⟨pre, post, hreg⟩ := List.append_of_mem hs
    obtain ⟨before, after, hcalls, hbefore, hafter, _⟩ :=
      process_visit_nodup env nm timeout w pre post s sel hsel hreg hwait hnodup
    have hab : before.countP (Call.isActivityOf s) = 0 :=
      List.countP_eq_zero.mpr (fun c hc hp => hbefore c hc (isActivityOf_socket s c hp))
    have haa : after.countP (Call.isActivityOf s) = 0 :=
      List.countP_eq_zero.mpr (fun c hc hp => hafter c hc (isActivityOf_socket s c hp))
    have hfb : before.count (Call.free s) = 0 :=
      List.count_eq_zero_of_not_mem (fun h => hbefore _ h rfl)
    have hfa : after.count (Call.free s) = 0 :=
      List.count_eq_zero_of_not_mem (fun h => hafter _ h rfl)
    rw [hcalls]
    simp only [List.countP_append, List.count_append, hab, haa, hfb, hfa]
    cases hrem : (processEntry env sel.fdset sel.errset s (stateAfter env sel pre w)).1 <;>
      by_cases hS : Selected env sel s = true <;>
      by_cases hrv : (env.activity s (stateAfter env sel pre w).world).1 =
        UA_STATUSCODE_GOOD <;>
      simp [hS, hrv, hwait, Call.isActivityOf, List.countP_cons, List.count_cons]
  · have hneg : sel.ret < 0 := not_le.mp hwait
    unfold select_nm_process
    simp [hsel, hneg, hwait]

/-- Witness of C18: of the sockets 2, 100, 3 the wait reports 2 and 100; each
of these gets one `activity` call, socket 3 none, and 100 is freed once. -/
theorem process_activity_once_witness :
    (select_nm_process
      { exampleEnv 1 with select := fun _ _ _ _ _ =>
          { ret := 2, fdset := [2], errset := [100] } }
      { sockets := [2, 100, 3], numListenerSockets := 0 } 50 []).calls =
      [Call.activity 2 UA_STATUSCODE_GOOD, Call.mayDelete 2 false,
       Call.activity 100 UA_STATUSCODE_GOOD, Call.mayDelete 100 true, Call.free 100,
       Call.mayDelete 3 false] ∧
    (select_nm_process
      { exampleEnv 1 with select := fun _ _ _ _ _ =>
          { ret := 2, fdset := [2], errset := [100] } }
      { sockets := [2, 100, 3], numListenerSockets := 0 } 50 []).calls.countP
        (Call.isActivityOf 100) = 1 :=
  ⟨by decide,
   ((process_activity_once
      { exampleEnv 1 with select := fun _ _ _ _ _ =>
          { ret := 2, fdset := [2], errset := [100] } }
      { sockets := [2, 100, 3], numListenerSockets := 0 } 50 []
      { ret := 2, fdset := [2], errset := [100] } rfl (by decide) 100 (by decide)).1).trans
      (by decide)⟩

/-- C18, as stated, fails: with socket 2 registered twice and reported
readable, its `activity` is invoked twice in one call; with socket 100
registered twice, its `free` is invoked twice. -/
theorem process_activity_once_counterexample :
    (select_nm_process (exampleEnv 1) { sockets := [2, 2], numListenerSockets := 0 }
      50 []).calls.countP (Call.isActivityOf 2) = 2 ∧
    (select_nm_process (exampleEnv 1) { sockets := [100, 100], numListenerSockets := 0 }
      50 []).calls.count (Call.free 100) = 2 := by
  decide

/-! ### Uniqueness of registrations -/

theorem unregisterLoop_sublist (s : SocketPtr) (l : List SocketPtr) :
    (unregisterLoop s l).Sublist l := by
  rw [unregisterLoop_eq_filter]
  exact List.filter_sublist l

theorem applyOp_nodup {σ : Type} (env : SocketEnv σ) (op : NMOp) (nm : SelectNMData) (w : σ)
    (hnodup : nm.sockets.Nodup)
    (hfresh : (match op with
      | NMOp.registerSocket _ socket => !nm.sockets.contains socket
      | _ => true) = true) :
    (applyOp env op nm w).1.sockets.Nodup := by
  cases op with
  | registerSocket mallocOk socket =>
    simp only [applyOp, select_nm_registerSocket]
    cases mallocOk
    · simpa using hnodup
    · simp only [Bool.not_true, Bool.false_eq_true, if_false]
      have hnot : socket ∉ nm.sockets := by simpa using hfresh
      exact List.nodup_cons.mpr ⟨hnot, hnodup⟩
  | unregisterSocket socket =>
    simp only [applyOp, select_nm_unregisterSocket]
    exact hnodup.sublist (unregisterLoop_sublist socket nm.sockets)
  | process timeout =>
    simp only [applyOp, select_nm_process]
    split
    · exact hnodup
    · exact hnodup.sublist (processLoop_sublist env _ _ nm.sockets _)

/-- C11, as amended: starting from a registration list without duplicates (the
empty one in particular), after every finite sequence of `registerSocket`,
`unregisterSocket` and `process` calls in which `registerSocket` is never
called with a socket that is registered at that moment, no socket is referenced
by more than one entry. -/
theorem registration_unique_if_fresh {σ : Type} (env : SocketEnv σ) (ops : List NMOp)
    (nm : SelectNMData) (w : σ) (hnodup : nm.sockets.Nodup)
    (hfresh : registersFresh env ops nm w = true) :
    (runOps env ops nm w).1.sockets.Nodup := by
  induction ops generalizing nm w with
  | nil => exact hnodup
  | cons op rest ih =>
    simp only [registersFresh, Bool.and_eq_true] at hfresh
    simp only [runOps]
    exact ih _ _ (applyOp_nodup env op nm w hnodup hfresh.1) hfresh.2

/-- Witness of C11: sockets 1 and 100 are registered, a `process` call reaps
100, 1 is unregistered and registered again; no entry is doubled. -/
theorem registration_unique_if_fresh_witness :
    (runOps (exampleEnv 1)
      [NMOp.registerSocket true 1, NMOp.registerSocket true 100, NMOp.process 10,
       NMOp.unregisterSocket 1, NMOp.registerSocket true 1, NMOp.registerSocket true 100]
      { sockets := [], numListenerSockets := 0 } []).1.sockets.Nodup :=
  registration_unique_if_fresh (exampleEnv 1)
    [NMOp.registerSocket true 1, NMOp.registerSocket true 100, NMOp.process 10,
     NMOp.unregisterSocket 1, NMOp.registerSocket true 1, NMOp.registerSocket true 100]
    { sockets := [], numListenerSockets := 0 } [] (by decide) (by decide)

/-- C11, as stated, fails: registering socket 1 twice, starting from the empty
list, leaves two entries for it. -/
theorem registration_unique_if_fresh_counterexample :
    (runOps (exampleEnv 1) [NMOp.registerSocket true 1, NMOp.registerSocket true 1]
      { sockets := [], numListenerSockets := 0 } []).1.sockets = [1, 1] ∧
    ¬ (runOps (exampleEnv 1) [NMOp.registerSocket true 1, NMOp.registerSocket true 1]
      { sockets := [], numListenerSockets := 0 } []).1.sockets.Nodup := by
  decide

/-! ### The listener count -/

/-- No call on the manager writes `numListenerSockets`. -/
theorem runOps_numListenerSockets {σ : Type} (env : SocketEnv σ) (ops : List NMOp)
    (nm : SelectNMData) (w : σ) :
    (runOps env ops nm w).1.numListenerSockets = nm.numListenerSockets := by
  induction ops generalizing nm w with
  | nil => rfl
  | cons op rest ih =>
    simp only [runOps]
    rw [ih]
    cases op with
    | registerSocket mallocOk socket =>
      simp only [applyOp, select_nm_registerSocket]
      cases mallocOk <;> rfl
    | unregisterSocket socket => rfl
    | process timeout =>
      simp only [applyOp, select_nm_process]
      split <;> rfl

/-- C12, failing input: from the empty manager with `numListenerSockets = 0`,
one `registerSocket` call with a listener (socket 2) leaves the count at 0
while one listener is registered; `getDiscoveryUrls` then fails. -/
theorem listener_count_not_tracked :
    (runOps (exampleEnv 1) [NMOp.registerSocket true 2]
      { sockets := [], numListenerSockets := 0 } []).1.numListenerSockets = 0 ∧
    (listeners (exampleEnv 1) (runOps (exampleEnv 1) [NMOp.registerSocket true 2]
      { sockets := [], numListenerSockets := 0 } []).1.sockets).length = 1 ∧
    (select_nm_getDiscoveryUrls (exampleEnv 1) true
      (runOps (exampleEnv 1) [NMOp.registerSocket true 2]
        { sockets := [], numListenerSockets := 0 } []).1).status =
      UA_STATUSCODE_BADINTERNALERROR := by
  decide

/-! ### Removing every match against removing the first -/

theorem unregisterLoop_of_not_mem (s : SocketPtr) (l : List SocketPtr) (h : s ∉ l) :
    unregisterLoop s l = l := by
  rw [unregisterLoop_eq_filter, List.filter_eq_self]
  intro e he
  simp only [bne_iff_ne, ne_eq]
  intro heq
  exact h (heq ▸ he)

/-- C19: on a registration list in which every socket appears at most once,
the loop of `select_nm_unregisterSocket`, which unlinks every matching entry,
leaves the same list as unlinking only the first matching entry; on the list
`[1, 1]` the two differ. -/
theorem unregister_all_eq_first (l : List SocketPtr) (s : SocketPtr) (hnodup : l.Nodup) :
    unregisterLoop s l = unregisterFirst s l ∧
    unregisterLoop 1 [1, 1] ≠ unregisterFirst 1 [1, 1] := by
  refine ⟨?_, by decide⟩
  induction l with
  | nil => rfl
  | cons q rest ih =>
    have hq := List.nodup_cons.mp hnodup
    unfold unregisterLoop unregisterFirst
    by_cases h : q = s
    · rw [if_pos h, if_pos h]
      exact unregisterLoop_of_not_mem s rest (h ▸ hq.1)
    · rw [if_neg h, if_neg h, ih hq.2]

/-- Witness of C19: unlinking socket 2 from `[3, 2, 5]` either way. -/
theorem unregister_all_eq_first_witness :
    unregisterLoop 2 [3, 2, 5] = unregisterFirst 2 [3, 2, 5] ∧
    unregisterLoop 2 [3, 2, 5] = [3, 5] :=
  ⟨(unregister_all_eq_first [3, 2, 5] 2 (by decide)).1, by decide⟩

/-! ### The state the constructor hands back -/

/-- When the fresh block happens to read as an empty list and a count of 0, the
manager behaves as an empty one: `getDiscoveryUrls` yields an array of zero
strings and `process` invokes no callback and leaves the list empty. -/
theorem zeroed_block_initial_state {σ : Type} (env : SocketEnv σ) (mallocOk : Bool)
    (timeout : Nat) (w : σ) :
    constructedData (UA_SelectBasedNetworkManager true
      (some { sockets := [], numListenerSockets := 0 }) none) =
      some { sockets := [], numListenerSockets := 0 } ∧
    (mallocOk = true →
      select_nm_getDiscoveryUrls env mallocOk { sockets := [], numListenerSockets := 0 } =
        { status := UA_STATUSCODE_GOOD, discoveryUrls := some [] }) ∧
    (select_nm_process env { sockets := [], numListenerSockets := 0 } timeout w).calls = [] ∧
    (select_nm_process env { sockets := [], numListenerSockets := 0 } timeout
      w).internalData.sockets = [] := by
  refine ⟨rfl, ?_, ?_, ?_⟩
  · intro h
    subst h
    rfl
  · unfold select_nm_process
    simp only
    split <;> rfl
  · unfold select_nm_process
    simp only
    split <;> rfl

/-- C21, failing input: the constructor, both allocations succeeding, returns
`GOOD` and hands back a manager whose registration list and
`numListenerSockets` are whatever the block from `UA_malloc` held: no statement
of the constructor writes them.  With a block that reads as an empty list and a
count of 3, the immediate `getDiscoveryUrls` succeeds with an array of three
cells, none written, not with zero URLs; with a block whose list head reaches
an entry for socket 1, the immediate `process` invokes the callbacks of that
socket. -/
theorem constructor_leaves_data_uninitialised (block : SelectNMData)
    (p_networkManager : Option UA_NetworkManager) :
    (UA_SelectBasedNetworkManager true (some block) p_networkManager).1 =
      UA_STATUSCODE_GOOD ∧
    constructedData (UA_SelectBasedNetworkManager true (some block) p_networkManager) =
      some block ∧
    (constructedData (UA_SelectBasedNetworkManager true
        (some { sockets := [], numListenerSockets := 3 }) none)).map
      (select_nm_getDiscoveryUrls (exampleEnv 1) true) =
      some { status := UA_STATUSCODE_GOOD, discoveryUrls := some [none, none, none] } ∧
    (constructedData (UA_SelectBasedNetworkManager true
        (some { sockets := [1], numListenerSockets := 0 }) none)).map
      (fun nm => (select_nm_process (exampleEnv 1) nm 0 []).calls) =
      some [Call.activity 1 0x80010000, Call.close 1, Call.mayDelete 1 true, Call.free 1] :=
  ⟨rfl, rfl, by decide, by decide⟩

end SelectNM

/-! # Properties of the dummy socket and the testing wrappers -/

namespace TestingSocket

open SelectNM (UA_StatusCode UA_STATUSCODE_GOOD UA_STATUSCODE_BADCOMMUNICATIONERROR)

/-- C15: for each of the three wrappers and every status `r` other than
success held by its result variable, the next call returns `r`, resets the
variable to success and does not invoke the wrapped function (its outcome is
written without it); the call after that, no new value being injected,
delegates to the wrapped function and returns its status. -/
theorem wrappers_pop_injected_result {σ : Type} (fns : WrappedFunctions σ)
    (st : TestingState σ) (r : UA_StatusCode) (hr : r ≠ UA_STATUSCODE_GOOD)
    (sock : Nat) (readActivity writeActivity : Bool) (networkManager timeout : Nat) :
    (UA_Socket_activityTesting fns sock readActivity writeActivity
        { st with UA_Socket_activityTesting_result := r } =
      (r, { st with UA_Socket_activityTesting_result := UA_STATUSCODE_GOOD,
                    clock := st.clock + st.UA_Socket_activitySleepDuration,
                    UA_Socket_activitySleepDuration := 0 }) ∧
     UA_Socket_activityTesting fns sock readActivity writeActivity
        (UA_Socket_activityTesting fns sock readActivity writeActivity
          { st with UA_Socket_activityTesting_result := r }).2 =
      fns.UA_Socket_activity sock readActivity writeActivity
        { st with UA_Socket_activityTesting_result := UA_STATUSCODE_GOOD,
                  clock := st.clock + st.UA_Socket_activitySleepDuration,
                  UA_Socket_activitySleepDuration := 0 }) ∧
    (UA_Socket_recvTesting fns sock timeout { st with UA_Socket_recvTesting_result := r } =
      (r, { st with UA_Socket_recvTesting_result := UA_STATUSCODE_GOOD,
                    clock := st.clock + timeout,
                    UA_Socket_recvSleepDuration := 0 }) ∧
     UA_Socket_recvTesting fns sock timeout
        (UA_Socket_recvTesting fns sock timeout
          { st with UA_Socket_recvTesting_result := r }).2 =
      fns.UA_Socket_recv sock timeout
        { st with UA_Socket_recvTesting_result := UA_STATUSCODE_GOOD,
                  clock := st.clock + timeout,
                  UA_Socket_recvSleepDuration := 0 }) ∧
    (UA_NetworkManager_processTesting fns networkManager timeout
        { st with UA_NetworkManager_processTesting_result := r } =
      (r, { st with UA_NetworkManager_processTesting_result := UA_STATUSCODE_GOOD,
                    clock := st.clock + (if timeout = 0 then 1 else timeout) }) ∧
     (UA_NetworkManager_processTesting fns networkManager timeout
        (UA_NetworkManager_processTesting fns networkManager timeout
          { st with UA_NetworkManager_processTesting_result := r }).2).1 =
      (fns.UA_NetworkManager_process networkManager timeout
        { st with UA_NetworkManager_processTesting_result := UA_STATUSCODE_GOOD,
                  clock := st.clock + (if timeout = 0 then 1 else timeout) }).1) := by
  refine ⟨⟨?_, ?_⟩, ⟨?_, ?_⟩, ⟨?_, ?_⟩⟩ <;>
    simp [UA_Socket_activityTesting, UA_Socket_recvTesting, UA_NetworkManager_processTesting,
      UA_fakeSleep, hr]

/-- Witness of C15: with `0x80010000` injected, the first `activity` call
returns it and the wrapped function is not entered (its counter stays 0); the
second call returns the wrapped function's status `0x80AB0000` and the counter
shows 1. -/
theorem wrappers_pop_injected_result_witness :
    (UA_Socket_activityTesting countingFunctions 42 true false
      { exampleState 0 0 0 with UA_Socket_activityTesting_result := 0x80010000 }).1 =
      0x80010000 ∧
    (UA_Socket_activityTesting countingFunctions 42 true false
      { exampleState 0 0 0 with UA_Socket_activityTesting_result := 0x80010000 }).2.world =
      0 ∧
    (UA_Socket_activityTesting countingFunctions 42 true false
      (UA_Socket_activityTesting countingFunctions 42 true false
        { exampleState 0 0 0 with
          UA_Socket_activityTesting_result := 0x80010000 }).2).1 = 0x80AB0000 ∧
    (UA_Socket_activityTesting countingFunctions 42 true false
      (UA_Socket_activityTesting countingFunctions 42 true false
        { exampleState 0 0 0 with
          UA_Socket_activityTesting_result := 0x80010000 }).2).2.world = 1 :=
  have h := wrappers_pop_injected_result countingFunctions (exampleState 0 0 0) 0x80010000
    (by decide) 42 true false 7 10
  ⟨congrArg Prod.fst h.1.1, congrArg (fun x => x.2.world) h.1.1,
   congrArg Prod.fst h.1.2, congrArg (fun x => x.2.world) h.1.2⟩

/-- C16: for the socket `createDummySocket` hands back, whose configured
`sendBufferSize` is 65536, `dummyGetSendBuffer` fails with the
communication-error status exactly when the requested length exceeds that
size, and then leaves `*p_buf` and the file's variables as they were;
otherwise it succeeds, sets `*p_buf` to the send buffer and makes the send
buffer report exactly the requested length. -/
theorem dummyGetSendBuffer_bound (verificationBuffer : Option UA_ByteString) (allocOk : Bool)
    (g : DummyGlobals) (len : Nat) (p_buf : Option BufferPtr) :
    (createDummySocket verificationBuffer allocOk g).1.socketConfig.sendBufferSize = 65536 ∧
    ((dummyGetSendBuffer len p_buf (createDummySocket verificationBuffer allocOk g).2).1 =
        UA_STATUSCODE_BADCOMMUNICATIONERROR ↔
      len > (createDummySocket verificationBuffer allocOk g).1.socketConfig.sendBufferSize) ∧
    (len > 65536 →
      dummyGetSendBuffer len p_buf (createDummySocket verificationBuffer allocOk g).2 =
        (UA_STATUSCODE_BADCOMMUNICATIONERROR, p_buf,
         (createDummySocket verificationBuffer allocOk g).2)) ∧
    (len ≤ 65536 →
      (dummyGetSendBuffer len p_buf (createDummySocket verificationBuffer allocOk g).2).1 =
        UA_STATUSCODE_GOOD ∧
      (dummyGetSendBuffer len p_buf (createDummySocket verificationBuffer allocOk g).2).2.1 =
        some BufferPtr.sendBuffer ∧
      (dummyGetSendBuffer len p_buf
        (createDummySocket verificationBuffer allocOk g).2).2.2.sendBuffer.length = len) := by
  have hsize : (createDummySocket verificationBuffer allocOk g).1.socketConfig.sendBufferSize =
      65536 := by
    simp [createDummySocket]
  have hlen : (createDummySocket verificationBuffer allocOk g).2.sendBufferLength = 65536 := by
    simp [createDummySocket]
  refine ⟨hsize, ?_, ?_, ?_⟩
  · rw [hsize]
    unfold dummyGetSendBuffer
    rw [hlen]
    by_cases h : len > 65536
    · simp [h]
    · simp only [h, if_false, iff_false]
      decide
  · intro h
    unfold dummyGetSendBuffer
    rw [hlen, if_pos h]
  · intro h
    unfold dummyGetSendBuffer
    rw [hlen, if_neg (by omega)]
    exact ⟨rfl, rfl, rfl⟩

/-- C20, as amended: `UA_Socket_activityTesting` advances the virtual clock by
`UA_Socket_activitySleepDuration` and resets that duration to 0 on both of its
paths (on the delegating path before the wrapped function is entered);
`UA_Socket_recvTesting` does the same with `UA_Socket_recvSleepDuration` on
its delegating path, while on its injected-failure path it advances the clock
by the caller's `*timeout` and resets the duration to 0. -/
theorem wrappers_sleep {σ : Type} (fns : WrappedFunctions σ) (st : TestingState σ)
    (sock : Nat) (readActivity writeActivity : Bool) (timeout : Nat) :
    (st.UA_Socket_activityTesting_result ≠ UA_STATUSCODE_GOOD →
      (UA_Socket_activityTesting fns sock readActivity writeActivity st).2.clock =
        st.clock + st.UA_Socket_activitySleepDuration ∧
      (UA_Socket_activityTesting fns sock readActivity writeActivity
        st).2.UA_Socket_activitySleepDuration = 0) ∧
    (st.UA_Socket_activityTesting_result = UA_STATUSCODE_GOOD →
      UA_Socket_activityTesting fns sock readActivity writeActivity st =
        fns.UA_Socket_activity sock readActivity writeActivity
          { st with clock := st.clock + st.UA_Socket_activitySleepDuration,
                    UA_Socket_activitySleepDuration := 0 }) ∧
    (st.UA_Socket_recvTesting_result ≠ UA_STATUSCODE_GOOD →
      (UA_Socket_recvTesting fns sock timeout st).2.clock = st.clock + timeout ∧
      (UA_Socket_recvTesting fns sock timeout st).2.UA_Socket_recvSleepDuration = 0) ∧
    (st.UA_Socket_recvTesting_result = UA_STATUSCODE_GOOD →
      UA_Socket_recvTesting fns sock timeout st =
        fns.UA_Socket_recv sock timeout
          { st with clock := st.clock + st.UA_Socket_recvSleepDuration,
                    UA_Socket_recvSleepDuration := 0 }) := by
  refine ⟨?_, ?_, ?_, ?_⟩ <;> intro h <;>
    simp [UA_Socket_activityTesting, UA_Socket_recvTesting, UA_fakeSleep, h]

/-- C20, as stated, fails: with a failure injected into `UA_Socket_recvTesting`,
a configured sleep duration of 5 and a caller's timeout of 7, the clock moves
from 100 to 107, not to 105. -/
theorem wrappers_sleep_counterexample :
    (exampleState 0 0x80010000 0).UA_Socket_recvSleepDuration = 5 ∧
    (exampleState 0 0x80010000 0).clock = 100 ∧
    (UA_Socket_recvTesting countingFunctions 42 7 (exampleState 0 0x80010000 0)).2.clock =
      107 ∧
    (UA_Socket_recvTesting countingFunctions 42 7 (exampleState 0 0x80010000 0)).2.clock ≠
      (exampleState 0 0x80010000 0).clock +
        (exampleState 0 0x80010000 0).UA_Socket_recvSleepDuration := by
  decide

end TestingSocket

/-! # Properties of the chunked encoder -/

namespace Chunking

theorem sendChunkMockUp_written (st st1 : EncodeState) (h : sendChunkMockUp st = some st1) :
    totalWritten st1 = totalWritten st ∧ (Accounted st → Accounted st1) := by
  unfold sendChunkMockUp at h
  split at h
  · exact absurd h (by simp)
  · simp only [Option.some.injEq] at h
    subst h
    refine ⟨by simp [totalWritten], ?_⟩
    intro ha
    simp only [Accounted] at ha ⊢
    simp [ha]

theorem encodePrimitive_written (encoded : List Nat) (st st' : EncodeState)
    (h : encodePrimitive encoded st = some st') :
    totalWritten st' = totalWritten st + encoded.length ∧ (Accounted st → Accounted st') := by
  unfold encodePrimitive at h
  split at h
  · simp only [Option.some.injEq] at h
    subst h
    refine ⟨?_, fun ha => ha⟩
    simp only [totalWritten, List.length_append]
    omega
  · split at h
    · exact absurd h (by simp)
    · rename_i st1 hst1
      split at h
      · simp only [Option.some.injEq] at h
        subst h
        have hw := sendChunkMockUp_written st st1 hst1
        refine ⟨?_, fun ha => hw.2 ha⟩
        have hchunk : st1.chunk = [] := by
          unfold sendChunkMockUp at hst1
          split at hst1
          · exact absurd hst1 (by simp)
          · simp only [Option.some.injEq] at hst1
            subst hst1
            rfl
        have h1 := hw.1
        simp only [totalWritten, hchunk, List.length_nil] at h1 ⊢
        omega
      · exact absurd h (by simp)

theorem drainPayload_written (fuel : Nat) (payload : List Nat) (st st' : EncodeState)
    (h : drainPayload fuel payload st = some st') :
    totalWritten st' = totalWritten st + payload.length ∧ (Accounted st → Accounted st') := by
  induction fuel generalizing payload st with
  | zero => exact absurd h (by simp [drainPayload])
  | succ fuel ih =>
    unfold drainPayload at h
    split at h
    · simp only [Option.some.injEq] at h
      subst h
      refine ⟨?_, fun ha => ha⟩
      simp only [totalWritten, List.length_append]
      omega
    · rename_i hbig
      split at h
      · exact absurd h (by simp)
      · rename_i st1 hst1
        have hw := sendChunkMockUp_written _ st1 hst1
        have hr := ih _ st1 h
        refine ⟨?_, fun ha => hr.2 (hw.2 ha)⟩
        rw [hr.1, hw.1]
        simp only [totalWritten, List.length_append, List.length_take, List.length_drop]
        omega

mutual
theorem encodeBinary_written : ∀ (v : Value) (st st' : EncodeState),
    encodeBinary v st = some st' →
    totalWritten st' = totalWritten st + calcSizeBinary v ∧ (Accounted st → Accounted st')
  | Value.primitive encoded, st, st', h => by
    simp only [encodeBinary] at h
    simpa [calcSizeBinary] using encodePrimitive_written encoded st st' h
  | Value.string none, st, st', h => by
    simp only [encodeBinary] at h
    simpa [calcSizeBinary, int32Bytes, littleEndian] using encodePrimitive_written _ st st' h
  | Value.string (some payload), st, st', h => by
    simp only [encodeBinary, Option.bind_eq_some] at h
    obtain ⟨st1, h1, h2⟩ := h
    have e1 := encodePrimitive_written _ st st1 h1
    have e2 := drainPayload_written _ payload st1 st' h2
    refine ⟨?_, fun ha => e2.2 (e1.2 ha)⟩
    rw [e2.1, e1.1]
    simp only [calcSizeBinary, int32Bytes, littleEndian, List.length_cons, List.length_nil]
    omega
  | Value.array none, st, st', h => by
    simp only [encodeBinary] at h
    simpa [calcSizeBinary, int32Bytes, littleEndian] using encodePrimitive_written _ st st' h
  | Value.array (some elements), st, st', h => by
    simp only [encodeBinary, Option.bind_eq_some] at h
    obtain ⟨st1, h1, h2⟩ := h
    have e1 := encodePrimitive_written _ st st1 h1
    have e2 := encodeList_written elements st1 st' h2
    refine ⟨?_, fun ha => e2.2 (e1.2 ha)⟩
    rw [e2.1, e1.1]
    simp only [calcSizeBinary, int32Bytes, littleEndian, List.length_cons, List.length_nil]
    omega
  | Value.struct fields, st, st', h => by
    simp only [encodeBinary] at h
    simpa [calcSizeBinary] using encodeList_written fields st st' h
  | Value.variant mask content, st, st', h => by
    simp only [encodeBinary, Option.bind_eq_some] at h
    obtain ⟨st1, h1, h2⟩ := h
    have e1 := encodePrimitive_written _ st st1 h1
    have e2 := encodeBinary_written content st1 st' h2
    refine ⟨?_, fun ha => e2.2 (e1.2 ha)⟩
    rw [e2.1, e1.1]
    simp only [calcSizeBinary, List.length_cons, List.length_nil]
    omega
theorem encodeList_written : ∀ (vs : List Value) (st st' : EncodeState),
    encodeList vs st = some st' →
    totalWritten st' = totalWritten st + calcSizeList vs ∧ (Accounted st → Accounted st')
  | [], st, st', h => by
    simp only [encodeList, Option.some.injEq] at h
    subst h
    exact ⟨by simp [calcSizeList], fun ha => ha⟩
  | v :: vs, st, st', h => by
    simp only [encodeList, Option.bind_eq_some] at h
    obtain ⟨st1, h1, h2⟩ := h
    have e1 := encodeBinary_written v st st1 h1
    have e2 := encodeList_written vs st1 st' h2
    refine ⟨?_, fun ha => e2.2 (e1.2 ha)⟩
    rw [e2.1, e1.1]
    simp only [calcSizeList]
    omega
end

/-- C13: a successful chunked encode of a value writes exactly
`calcSizeBinary` bytes: the number of bytes written, counted as the test counts
it (the cursor offsets added to `dataCount` at each exchange plus the cursor
offset in the last chunk), grows by `calcSizeBinary`; and the bytes counted in
`dataCount` are the bytes left behind in the exchanged chunks. -/
theorem encode_writes_calcSize (v : Value) (st st' : EncodeState)
    (h : encodeBinary v st = some st') :
    totalWritten st' = totalWritten st + calcSizeBinary v ∧
    (st.dataCount = (st.sent.map List.length).sum →
      st'.dataCount = (st'.sent.map List.length).sum) :=
  encodeBinary_written v st st' h

set_option maxRecDepth 100000 in
/-- Witness of C13: the two test cases, six buffers of 30 bytes each: the
variant wrapping the `Int32` numbers 0 to 29 and the variant wrapping the
string of 120 bytes are both encoded with success, and the bytes written add up
to `calcSizeBinary`, which is 125 for both. -/
theorem encode_writes_calcSize_witness :
    (∃ st', encodeBinary int32ArrayVariant (testStart 6 30) = some st' ∧
      totalWritten st' = calcSizeBinary int32ArrayVariant ∧
      calcSizeBinary int32ArrayVariant = 125) ∧
    (∃ st', encodeBinary stringVariant (testStart 6 30) = some st' ∧
      totalWritten st' = calcSizeBinary stringVariant ∧
      calcSizeBinary stringVariant = 125) :=
  ⟨match h : encodeBinary int32ArrayVariant (testStart 6 30) with
    | some st' =>
      ⟨st', rfl,
       ((encode_writes_calcSize int32ArrayVariant (testStart 6 30) st' h).1).trans
         (by simp [totalWritten, testStart]),
       by decide⟩
    | none => absurd h (by decide),
   match h : encodeBinary stringVariant (testStart 6 30) with
    | some st' =>
      ⟨st', rfl,
       ((encode_writes_calcSize stringVariant (testStart 6 30) st' h).1).trans
         (by simp [totalWritten, testStart]),
       by decide⟩
    | none => absurd h (by decide)⟩

/-! ### Primitives and chunk boundaries -/

theorem sendChunkMockUp_eq (st st1 : EncodeState) (h : sendChunkMockUp st = some st1) :
    ∃ next, st.buffers = next :: st1.buffers ∧
      st1 = { chunk := [], capacity := next, buffers := st1.buffers,
              sent := st.sent ++ [st.chunk], counter := st.counter + 1,
              dataCount := st.dataCount + st.chunk.length } := by
  unfold sendChunkMockUp at h
  split at h
  · exact absurd h (by simp)
  · rename_i next rest hb
    simp only [Option.some.injEq] at h
    subst h
    exact ⟨next, hb, rfl⟩

/-- What `encodePrimitive` does, by cases: a primitive that fits is appended
behind the cursor and the callback is not invoked; one that does not fit makes
the callback run once and is put at the begin of the fresh window. -/
theorem encodePrimitive_cases (encoded : List Nat) (st st' : EncodeState)
    (h : encodePrimitive encoded st = some st') :
    (st.chunk.length + encoded.length ≤ st.capacity ∧
      st' = { st with chunk := st.chunk ++ encoded }) ∨
    (¬ st.chunk.length + encoded.length ≤ st.capacity ∧
      ∃ next rest, st.buffers = next :: rest ∧
        st' = { chunk := encoded, capacity := next, buffers := rest,
                sent := st.sent ++ [st.chunk], counter := st.counter + 1,
                dataCount := st.dataCount + st.chunk.length }) := by
  unfold encodePrimitive at h
  split at h
  · rename_i hfit
    simp only [Option.some.injEq] at h
    exact Or.inl ⟨hfit, h.symm⟩
  · rename_i hfit
    split at h
    · exact absurd h (by simp)
    · rename_i st1 hst1
      obtain ⟨next, hb, hst1eq⟩ := sendChunkMockUp_eq st st1 hst1
      split at h
      · simp only [Option.some.injEq] at h
        refine Or.inr ⟨hfit, next, st1.buffers, hb, ?_⟩
        rw [← h, hst1eq]
      · exact absurd h (by simp)

theorem encodePrimitive_buffers (k : Nat) (encoded : List Nat) (st st' : EncodeState)
    (h : encodePrimitive encoded st = some st') (hpos : ∀ c ∈ st.buffers, k ≤ c) :
    ∀ c ∈ st'.buffers, k ≤ c := by
  rcases encodePrimitive_cases encoded st st' h with ⟨_, he⟩ | ⟨_, next, rest, hb, he⟩
  · subst he
    exact hpos
  · subst he
    intro c hc
    exact hpos c (hb ▸ List.mem_cons_of_mem next hc)

theorem encodePrimitives_buffers (k : Nat) (ps : List (List Nat)) (st st' : EncodeState)
    (h : encodePrimitives ps st = some st') (hpos : ∀ c ∈ st.buffers, k ≤ c) :
    ∀ c ∈ st'.buffers, k ≤ c := by
  induction ps generalizing st with
  | nil =>
    simp only [encodePrimitives, Option.some.injEq] at h
    subst h
    exact hpos
  | cons p ps ih =>
    simp only [encodePrimitives, Option.bind_eq_some] at h
    obtain ⟨st1, h1, h2⟩ := h
    exact ih st1 h2 (encodePrimitive_buffers k p st st1 h1 hpos)

theorem encodePrimitives_append (ps qs : List (List Nat)) (st : EncodeState) :
    encodePrimitives (ps ++ qs) st = (encodePrimitives ps st).bind (encodePrimitives qs) := by
  induction ps generalizing st with
  | nil => simp [encodePrimitives]
  | cons p ps ih =>
    simp only [List.cons_append, encodePrimitives]
    cases encodePrimitive p st with
    | none => rfl
    | some st1 => simp [ih]

/-- A payload that fits behind the cursor, written byte by byte. -/
theorem encodePrimitives_payload_fits (payload : List Nat) (st : EncodeState)
    (hfit : payload.length ≤ st.capacity - st.chunk.length) :
    encodePrimitives (payloadPrimitives payload) st =
      some { st with chunk := st.chunk ++ payload } := by
  induction payload generalizing st with
  | nil => simp [payloadPrimitives, encodePrimitives]
  | cons b rest ih =>
    simp only [List.length_cons] at hfit
    have h1 : encodePrimitive [b] st = some { st with chunk := st.chunk ++ [b] } := by
      unfold encodePrimitive
      rw [if_pos]
      simp only [List.length_cons, List.length_nil]
      omega
    simp only [payloadPrimitives, List.map_cons, encodePrimitives, h1, Option.some_bind]
    have h2 := ih { st with chunk := st.chunk ++ [b] } (by
      simp only [List.length_append, List.length_cons, List.length_nil]
      omega)
    simp only [payloadPrimitives] at h2
    rw [h2]
    simp

/-- Draining a payload chunk by chunk is writing its bytes one by one as
primitives of width 1, as long as no buffer has capacity 0. -/
theorem drainPayload_eq_bytes (fuel : Nat) (payload : List Nat) (st : EncodeState)
    (hfuel : st.buffers.length < fuel) (hpos : ∀ c ∈ st.buffers, 0 < c) :
    drainPayload fuel payload st = encodePrimitives (payloadPrimitives payload) st := by
  induction fuel generalizing payload st with
  | zero => exact absurd hfuel (by omega)
  | succ fuel ih =>
    unfold drainPayload
    by_cases hfit : payload.length ≤ st.capacity - st.chunk.length
    · rw [if_pos hfit, encodePrimitives_payload_fits payload st hfit]
    · rw [if_neg hfit]
      have hsplit : payload = payload.take (st.capacity - st.chunk.length) ++
          payload.drop (st.capacity - st.chunk.length) := (List.take_append_drop _ _).symm
      have htake : (payload.take (st.capacity - st.chunk.length)).length =
          st.capacity - st.chunk.length := by
        rw [List.length_take]
        omega
      have hdrop : payload.drop (st.capacity - st.chunk.length) ≠ [] := by
        intro hnil
        have := congrArg List.length hnil
        simp only [List.length_drop, List.length_nil] at this
        omega
      obtain ⟨b, rest, hbr⟩ := List.exists_cons_of_ne_nil hdrop
      have hpp : payloadPrimitives payload =
          payloadPrimitives (payload.take (st.capacity - st.chunk.length)) ++
            payloadPrimitives (b :: rest) := by
        rw [← hbr]
        simp only [payloadPrimitives, ← List.map_append, List.take_append_drop]
      rw [hpp, encodePrimitives_append,
        encodePrimitives_payload_fits _ st (by rw [htake]), Option.some_bind, hbr]
      have hfull : ¬ (st.chunk ++ payload.take (st.capacity - st.chunk.length)).length +
          [b].length ≤ st.capacity := by
        simp only [List.length_append, htake, List.length_cons, List.length_nil]
        omega
      simp only [payloadPrimitives, List.map_cons, encodePrimitives]
      conv_rhs => rw [encodePrimitive, if_neg hfull]
      cases hst1 : sendChunkMockUp
          { st with chunk := st.chunk ++ payload.take (st.capacity - st.chunk.length) } with
      | none => rfl
      | some st1 =>
        obtain ⟨next, hb, hst1eq⟩ := sendChunkMockUp_eq _ st1 hst1
        simp only at hb
        have hnext : 0 < next := hpos next (hb ▸ List.mem_cons_self next _)
        have hcap : st1.capacity = next := by rw [hst1eq]
        have hchunk : st1.chunk = [] := by rw [hst1eq]
        have hpos1 : ∀ c ∈ st1.buffers, 0 < c :=
          fun c hc => hpos c (hb ▸ List.mem_cons_of_mem next hc)
        have hfuel1 : st1.buffers.length < fuel := by
          have := congrArg List.length hb
          simp only [List.length_cons] at this
          omega
        dsimp only
        rw [ih (b :: rest) st1 hfuel1 hpos1]
        simp only [payloadPrimitives, List.map_cons, encodePrimitives]
        have hl : encodePrimitive [b] st1 = some { st1 with chunk := [b] } := by
          unfold encodePrimitive
          rw [if_pos (by simp only [hchunk, List.length_nil, List.length_cons, hcap]; omega)]
          simp [hchunk]
        rw [hl]
        simp only [hcap, List.length_cons, List.length_nil]
        rw [if_pos (by omega)]

theorem encodePrimitives_singleton (p : List Nat) (st : EncodeState) :
    encodePrimitives [p] st = encodePrimitive p st := by
  simp only [encodePrimitives]
  cases encodePrimitive p st <;> rfl

mutual
/-- As long as no buffer has capacity 0, encoding a value is writing its
primitives one after the other. -/
theorem encodeBinary_eq_primitives : ∀ (v : Value) (st : EncodeState),
    (∀ c ∈ st.buffers, 1 ≤ c) → encodeBinary v st = encodePrimitives (primitives v) st
  | Value.primitive encoded, st, _ => by
    simp only [encodeBinary, primitives, encodePrimitives_singleton]
  | Value.string none, st, _ => by
    simp only [encodeBinary, primitives, encodePrimitives_singleton]
  | Value.string (some payload), st, hpos => by
    simp only [encodeBinary, primitives, encodePrimitives]
    cases h1 : encodePrimitive (int32Bytes payload.length) st with
    | none => rfl
    | some st1 =>
      simp only [Option.some_bind]
      exact drainPayload_eq_bytes _ payload st1 (Nat.lt_succ_self _)
        (encodePrimitive_buffers 1 _ st st1 h1 hpos)
  | Value.array none, st, _ => by
    simp only [encodeBinary, primitives, encodePrimitives_singleton]
  | Value.array (some elements), st, hpos => by
    simp only [encodeBinary, primitives, encodePrimitives]
    cases h1 : encodePrimitive (int32Bytes elements.length) st with
    | none => rfl
    | some st1 =>
      simp only [Option.some_bind]
      exact encodeList_eq_primitives elements st1
        (encodePrimitive_buffers 1 _ st st1 h1 hpos)
  | Value.struct fields, st, hpos => by
    simp only [encodeBinary, primitives]
    exact encodeList_eq_primitives fields st hpos
  | Value.variant mask content, st, hpos => by
    simp only [encodeBinary, primitives, encodePrimitives]
    cases h1 : encodePrimitive [mask] st with
    | none => rfl
    | some st1 =>
      simp only [Option.some_bind]
      exact encodeBinary_eq_primitives content st1
        (encodePrimitive_buffers 1 _ st st1 h1 hpos)
theorem encodeList_eq_primitives : ∀ (vs : List Value) (st : EncodeState),
    (∀ c ∈ st.buffers, 1 ≤ c) → encodeList vs st = encodePrimitives (primitivesList vs) st
  | [], st, _ => by
    simp only [encodeList, primitivesList, encodePrimitives]
  | v :: vs, st, hpos => by
    simp only [encodeList, primitivesList, encodePrimitives_append]
    rw [encodeBinary_eq_primitives v st hpos]
    cases h1 : encodePrimitives (primitives v) st with
    | none => rfl
    | some st1 =>
      simp only [Option.some_bind]
      exact encodeList_eq_primitives vs st1
        (encodePrimitives_buffers 1 _ st st1 h1 hpos)
end

/-- No primitive straddles a chunk boundary: the primitives split into
consecutive groups, the first of which continues the active chunk while each
further group fills one chunk of its own. -/
theorem encodePrimitives_groups (ps : List (List Nat)) (st st' : EncodeState)
    (h : encodePrimitives ps st = some st') :
    ∃ (g : List (List Nat)) (gs : List (List (List Nat))),
      (g :: gs).flatten = ps ∧
      st'.sent ++ [st'.chunk] = st.sent ++ (st.chunk ++ g.flatten) :: gs.map List.flatten := by
  induction ps generalizing st with
  | nil =>
    simp only [encodePrimitives, Option.some.injEq] at h
    subst h
    exact ⟨[], [], rfl, by simp⟩
  | cons p ps ih =>
    simp only [encodePrimitives, Option.bind_eq_some] at h
    obtain ⟨st1, h1, h2⟩ := h
    obtain ⟨g, gs, hflat, hchunks⟩ := ih st1 h2
    rcases encodePrimitive_cases p st st1 h1 with ⟨_, he⟩ | ⟨_, next, rest, _, he⟩
    · refine ⟨p :: g, gs, ?_, ?_⟩
      · rw [← hflat]
        simp
      · rw [hchunks, he]
        simp
    · refine ⟨[], (p :: g) :: gs, ?_, ?_⟩
      · rw [← hflat]
        simp
      · rw [hchunks, he]
        simp

/-- The callback runs once for each primitive that does not fit behind the
cursor when its turn comes, and not otherwise. -/
theorem encodePrimitives_counter (ps : List (List Nat)) (st st' : EncodeState)
    (h : encodePrimitives ps st = some st') :
    st'.counter = st.counter +
      exchangesNeeded (ps.map List.length) st.chunk.length st.capacity st.buffers := by
  induction ps generalizing st with
  | nil =>
    simp only [encodePrimitives, Option.some.injEq] at h
    subst h
    simp [exchangesNeeded]
  | cons p ps ih =>
    simp only [encodePrimitives, Option.bind_eq_some] at h
    obtain ⟨st1, h1, h2⟩ := h
    have hrec := ih st1 h2
    rcases encodePrimitive_cases p st st1 h1 with ⟨hfit, he⟩ | ⟨hfit, next, rest, hb, he⟩
    · rw [hrec, he]
      simp only [List.map_cons, exchangesNeeded, if_pos hfit, List.length_append]
    · rw [hrec, he]
      simp only [List.map_cons, exchangesNeeded, if_neg hfit, hb]
      omega

/-- C14: for every value and every chunk sequence whose windows are each at
least 16 bytes wide, a successful encode invokes the exchange callback once
for each primitive that does not fit behind the write cursor when its turn
comes (`write_cursor + w > write_end`), and only then, so that the number of
calls is a function of the primitives' widths and the chunk capacities; and no
primitive straddles a chunk boundary: the primitives split into consecutive
groups, the first continuing the active chunk and every further one making up
one chunk. -/
theorem encode_exchanges_when_full (v : Value) (st st' : EncodeState)
    (hwindows : 16 ≤ st.capacity ∧ ∀ c ∈ st.buffers, 16 ≤ c)
    (h : encodeBinary v st = some st') :
    st'.counter = st.counter +
      exchangesNeeded ((primitives v).map List.length) st.chunk.length st.capacity
        st.buffers ∧
    ∃ (g : List (List Nat)) (gs : List (List (List Nat))),
      (g :: gs).flatten = primitives v ∧
      st'.sent ++ [st'.chunk] = st.sent ++ (st.chunk ++ g.flatten) :: gs.map List.flatten := by
  have hpos : ∀ c ∈ st.buffers, 1 ≤ c := fun c hc => le_trans (by decide) (hwindows.2 c hc)
  rw [encodeBinary_eq_primitives v st hpos] at h
  exact ⟨encodePrimitives_counter _ st st' h, encodePrimitives_groups _ st st' h⟩

set_option maxRecDepth 100000 in
/-- Witness of C14: the variant wrapping the `Int32` numbers 0 to 29, over six
buffers of 30 bytes: the encode succeeds and the callback is invoked exactly 4
times; the chunks left behind hold 29, 28, 28 and 28 bytes, the last one 12. -/
theorem encode_exchanges_when_full_witness :
    ∃ st', encodeBinary int32ArrayVariant (testStart 6 30) = some st' ∧
      st'.counter = 4 ∧ st'.sent.map List.length = [29, 28, 28, 28] ∧
      st'.chunk.length = 12 :=
  match h : encodeBinary int32ArrayVariant (testStart 6 30) with
  | some st' =>
    ⟨st', rfl,
     ((encode_exchanges_when_full int32ArrayVariant (testStart 6 30) st'
        (by decide) h).1).trans (by decide),
     by
       have he : encodeBinary int32ArrayVariant (testStart 6 30) =
         some st' := h
       have hs : (encodeBinary int32ArrayVariant (testStart 6 30)).map
         (fun s => (s.sent.map List.length, s.chunk.length)) = some ([29, 28, 28, 28], 12) := by
         decide
       rw [he] at hs
       simp only [Option.map_some', Option.some.injEq, Prod.mk.injEq] at hs
       exact hs⟩
  | none => absurd h (by decide)

end Chunking
